import Mathlib

/-!
Shallow embedding of the Mark-and-Sweep-Project memory manager
(`src/heap.cpp`, `src/gc.cpp`, `include/heap.h`, `include/gc.h`).

Addresses are modelled as byte offsets from the base of the `mmap`-ed
region (a `Nat`).  `size_t` / pointer arithmetic that can wrap is made
explicit with `% 2^64`.  The free list (a null-terminated chain of
`node_t` starting at `head`, ending at the sentinel `tail` placed at
offset `HEAP_SIZE`) is embedded as the `List` of its nodes in chain
order, with the sentinel left implicit.  Live allocation headers
(`GarbageCollector::allocation`, written by `Heap::split` and read back
by `Heap::my_free`, `add_nested_reference` and the mark phase) are kept
in an association list from header address to header contents; an
address is a key exactly while the block is live, mirroring the fact
that freeing overlays a free-list node on top of the header.
Operations whose C++ counterpart performs an undefined read (e.g.
freeing an address that is not a live allocation) or corrupts the list
(the split/coalesce paths that touch the sentinel) return `none`.
-/

namespace MSP

/-- HEAP_SIZE from heap.h (4 KiB region). -/
def HEAP_SIZE : Nat := 4096

/-- sizeof(Heap::node_t) = sizeof(size_t) + sizeof(node_t*) = 16 on the 64-bit target. -/
def NODE_SIZE : Nat := 16

/-- sizeof(GarbageCollector::allocation) = sizeof(size_t) + sizeof(bool) padded = 16. -/
def ALLOC_SIZE : Nat := 16

/-- sizeof(void*) = sizeof(uintptr_t) = 8: one machine word. -/
def WORD : Nat := 8

/-- 2^64, the modulus of `size_t` / pointer arithmetic. -/
def U64 : Nat := 2 ^ 64

theorem U64_val : U64 = 18446744073709551616 := by norm_num [U64]

/-- size_t subtraction a - b, wrapping modulo 2^64 (a is assumed < 2^64). -/
def sub64 (a b : Nat) : Nat := (a + (U64 - b % U64)) % U64

theorem sub64_of_le {a b : Nat} (hba : b ≤ a) (ha : a < U64) :
    sub64 a b = a - b := by
  unfold sub64
  rw [U64_val] at *
  omega

/-- A node of the free list (`Heap::node_t`): its address and its `size`
field.  The `next` field is represented by list adjacency (the node after
the last list entry is the sentinel `tail`). -/
structure FNode where
  addr : Nat
  size : Nat
deriving DecidableEq, Repr

/-- A live-allocation header (`GarbageCollector::allocation`). -/
structure Hdr where
  size : Nat
  marked : Bool
deriving DecidableEq, Repr

/-- Association list of live allocation headers, keyed by header address. -/
abbrev Headers := List (Nat × Hdr)

/-- First-match lookup of a header at address `a`. -/
def lookupHdr : Headers → Nat → Option Hdr
  | [], _ => none
  | (a', h) :: rest, a => if a = a' then some h else lookupHdr rest a

/-- Remove the first header entry at address `a` (the block stops being live:
its header bytes are overlaid by a free-list node). -/
def eraseHdr : Headers → Nat → Headers
  | [], _ => []
  | (a', h) :: rest, a => if a = a' then rest else (a', h) :: eraseHdr rest a

/-- Set the `marked` flag of the header at address `a` (first match). -/
def setMarked : Headers → Nat → Bool → Headers
  | [], _, _ => []
  | (a', h) :: rest, a, b =>
      if a = a' then (a', ⟨h.size, b⟩) :: rest else (a', h) :: setMarked rest a b

/-- The heap state: the free list and the live allocation headers. -/
structure HeapState where
  free : List FNode
  headers : Headers
deriving DecidableEq, Repr

/-- The single free node written by `Heap::start`:
`head->size = HEAP_SIZE - sizeof(node_t); head->next = tail`. -/
def initialFree : List FNode := [⟨0, HEAP_SIZE - NODE_SIZE⟩]

/-- The heap right after `Heap::start` (equivalently after `Heap::reset`). -/
def freshHeap : HeapState := ⟨initialFree, []⟩

/-- Heap::available_memory: walk the free list up to the sentinel, summing
the `size` fields. -/
def available_memory (h : HeapState) : Nat := (h.free.map FNode.size).sum

/-- Heap::find_free: first-fit walk of the free list remembering the
predecessor.  Returns the nodes strictly before the found node (whose last
element is `*prev`), the found node, and the nodes after it; `none` when no
node before the sentinel has `size ≥ S`. -/
def find_free (S : Nat) : List FNode → Option (List FNode × FNode × List FNode)
  | [] => none
  | n :: rest =>
      if S ≤ n.size then some ([], n, rest)
      else match find_free S rest with
        | some (pre, f, post) => some (n :: pre, f, post)
        | none => none

/-- Heap::my_malloc = find_free + split.  On success returns the user
pointer `(char*)allocated + sizeof(Allocation)` and the new heap state.
`Heap::split` carves `actual_size = size + sizeof(Allocation)` bytes off the
front of the found node, writes the remainder node at
`(char*)temp + actual_size` with `size = original_size - actual_size`
(size_t arithmetic, hence the `% U64` wraps), re-links the predecessor (or
`head`) to the remainder, and writes the allocation header
`{size, marked=false}` at the old node's address. -/
def my_malloc (h : HeapState) (S : Nat) : Option (Nat × HeapState) :=
  match find_free S h.free with
  | none => none
  | some (pre, found, post) =>
      let actual := (S + ALLOC_SIZE) % U64
      let rem : FNode := ⟨(found.addr + actual) % U64, sub64 found.size actual⟩
      some (found.addr + ALLOC_SIZE,
            ⟨pre ++ rem :: post, (found.addr, ⟨S, false⟩) :: h.headers⟩)

/-- Heap::coalesce: walk the free list while `next < free_block` (the
`takeWhile`/`dropWhile` pair mirrors that loop, `prev` being the last node
of `before`), link the freed node in, then forward-merge with `next` when
`(char*)free_block + size + sizeof(node_t) == (char*)next` and
backward-merge with `prev` under the symmetric test against `free_block`.
When the walk reaches the sentinel, `next` is the sentinel itself; a
forward merge with it (freed block ending exactly at `HEAP_SIZE`) would
absorb the sentinel and set `next = NULL`, corrupting the list — that
branch yields `none`. -/
def coalesce (fb : FNode) (l : List FNode) : Option (List FNode) :=
  let before := l.takeWhile (fun n => n.addr < fb.addr)
  let after := l.dropWhile (fun n => n.addr < fb.addr)
  let fwd : Option (FNode × List FNode) :=
    match after with
    | [] =>
        if (fb.addr + fb.size + NODE_SIZE) % U64 = HEAP_SIZE then none
        else some (fb, [])
    | n :: rest =>
        if (fb.addr + fb.size + NODE_SIZE) % U64 = n.addr then
          some (⟨fb.addr, (fb.size + n.size + NODE_SIZE) % U64⟩, rest)
        else some (fb, n :: rest)
  match fwd with
  | none => none
  | some (fb', after') =>
      match before.getLast? with
      | none => some (fb' :: after')
      | some prev =>
          if (prev.addr + prev.size + NODE_SIZE) % U64 = fb.addr then
            some (before.dropLast ++
              ⟨prev.addr, (prev.size + fb'.size + NODE_SIZE) % U64⟩ :: after')
          else some (before ++ fb' :: after')

/-- Heap::my_free: reinterpret the 16 bytes before the user pointer as the
allocation header, overlay a free node (`size = header.size`) there and
coalesce it into the free list.  Reading the header of an address that is
not a live allocation is undefined in the C++ (stale or foreign bytes), so
that case is `none`. -/
def my_free (h : HeapState) (p : Nat) : Option HeapState :=
  match lookupHdr h.headers (p - ALLOC_SIZE) with
  | none => none
  | some hdr =>
      match coalesce ⟨p - ALLOC_SIZE, hdr.size⟩ h.free with
      | none => none
      | some l => some ⟨l, eraseHdr h.headers (p - ALLOC_SIZE)⟩

/-- Heap::print_free_list: `printf("Free(%zd)", p->size)` for each node,
followed by `printf("->")` because the successor (a real node or the
sentinel) is never NULL, and a final newline once the sentinel is reached.
(`%zd` renders the same digits as `Nat` printing for every size below
2^63; all sizes arising in uncorrupted heaps are ≤ 4080.) -/
def print_free_list : List FNode → String
  | [] => "\n"
  | n :: rest => "Free(" ++ toString n.size ++ ")" ++ "->" ++ print_free_list rest

/-! Payload memory.  The conservative scanner reads the payload of live
blocks one 8-byte little-endian word at a time, and
`add_nested_reference` stores one word.  Payload bytes are modelled as a
total function from byte address to byte value; the fresh `MAP_ANON`
region is zero-filled. -/

/-- Store the k-byte little-endian encoding of `v` at address `a`. -/
def storeLE (m : Nat → Nat) (a v k : Nat) : Nat → Nat :=
  fun x => if a ≤ x ∧ x < a + k then v / 256 ^ (x - a) % 256 else m x

/-- Read `k` bytes at address `a` as a little-endian number. -/
def loadLE (m : Nat → Nat) (a : Nat) : Nat → Nat
  | 0 => 0
  | k + 1 => m a % 256 + 256 * loadLE m (a + 1) k

/-- An 8-byte (`void*` / `uintptr_t`) store, `((void **)src)[0] = dest`. -/
def storeWord (m : Nat → Nat) (a v : Nat) : Nat → Nat := storeLE m a v WORD

/-- An 8-byte word load, `*scan`. -/
def loadWord (m : Nat → Nat) (a : Nat) : Nat := loadLE m a WORD

/-! Collector registries.  `allocations` is a `std::map<void*, allocation*>`
whose value is always the key minus `sizeof(allocation)`, so only the
sorted key list is carried; `root_set` is a `std::multiset<void*>`
(sorted, with multiplicity); `reference_count` is a
`std::map<void*, int>` (sorted).  Sorted insertion mirrors the iteration
order the C++ collectors rely on. -/

/-- Ordered insert of a key into a sorted list (std::map / std::multiset). -/
def insort (p : Nat) : List Nat → List Nat
  | [] => [p]
  | q :: rest => if p < q then p :: q :: rest else q :: insort p rest

/-- Erase a single occurrence (`multiset::erase(iterator)`). -/
def eraseOnce (p : Nat) : List Nat → List Nat
  | [] => []
  | q :: rest => if p = q then rest else q :: eraseOnce p rest

/-- Reference-count table, sorted by address. -/
abbrev RCMap := List (Nat × Int)

/-- map::find on the reference-count table. -/
def lookupRC : RCMap → Nat → Option Int
  | [], _ => none
  | (q, c) :: rest, p => if p = q then some c else lookupRC rest p

/-- reference_count[p] += 1 (operator[] default-inserts 0). -/
def rcIncr (p : Nat) : RCMap → RCMap
  | [] => [(p, 1)]
  | (q, c) :: rest =>
      if p = q then (q, c + 1) :: rest
      else if p < q then (p, 1) :: (q, c) :: rest
      else (q, c) :: rcIncr p rest

/-- delete_reference's decrement: if the entry exists, decrement it, then
clamp negative values to 0.  No entry is created. -/
def rcDecClamp (p : Nat) : RCMap → RCMap
  | [] => []
  | (q, c) :: rest =>
      if p = q then (q, if c - 1 < 0 then 0 else c - 1) :: rest
      else (q, c) :: rcDecClamp p rest

/-- map::erase by key on the reference-count table. -/
def rcErase (p : Nat) : RCMap → RCMap
  | [] => []
  | (q, c) :: rest => if p = q then rest else (q, c) :: rcErase p rest

/-- The collector's state (`class GarbageCollector`) together with the heap
it manages and the payload memory of the region. -/
structure GC where
  heap : HeapState
  allocations : List Nat
  root_set : List Nat
  reference_count : RCMap
  mem : Nat → Nat

/-- The collector over a freshly started heap, with empty registries.
`mmap(MAP_ANON)` zero-fills the region. -/
def freshGC : GC :=
  ⟨freshHeap, [], [], [], fun _ => 0⟩

/-- GarbageCollector::add_reference: insert into the root multiset and
increment the reference count. -/
def add_reference (g : GC) (p : Nat) : GC :=
  { g with root_set := insort p g.root_set,
           reference_count := rcIncr p g.reference_count }

/-- GarbageCollector::malloc: delegate to Heap::my_malloc; on success
record `allocations[ptr] = ptr - sizeof(allocation)` and add a root
reference; on failure return NULL leaving the collector untouched. -/
def gc_malloc (g : GC) (S : Nat) : Option Nat × GC :=
  match my_malloc g.heap S with
  | none => (none, g)
  | some (p, h') =>
      (some p,
       add_reference { g with heap := h', allocations := insort p g.allocations } p)

/-- GarbageCollector::delete_reference: no-op if `p` is not in the root
multiset; otherwise erase one occurrence and, if a reference-count entry
exists, decrement it (clamping at 0). -/
def delete_reference (g : GC) (p : Nat) : GC :=
  if p ∈ g.root_set then
    { g with root_set := eraseOnce p g.root_set,
             reference_count := rcDecClamp p g.reference_count }
  else g

/-- GarbageCollector::add_nested_reference: read the source header at
`src - sizeof(allocation)`; if its payload holds at least one `void*`,
store `dest` in the first word of the payload and increment
`reference_count[dest]`, returning 0; otherwise return -1 with no state
change.  The root multiset is never touched.  Reading the header of an
address that is not a live allocation is undefined in the C++ (`none`). -/
def add_nested_reference (g : GC) (src dest : Nat) : Option (Int × GC) :=
  match lookupHdr g.heap.headers (src - ALLOC_SIZE) with
  | none => none
  | some hdr =>
      if WORD ≤ hdr.size then
        some (0, { g with mem := storeWord g.mem src dest,
                          reference_count := rcIncr dest g.reference_count })
      else some (-1, g)

/-- GarbageCollector::GC_free: return the block to the free list and erase
the address from all three registries (`multiset::erase(key)` removes every
occurrence). -/
def GC_free (g : GC) (p : Nat) : Option GC :=
  match my_free g.heap p with
  | none => none
  | some h' =>
      some { g with heap := h',
                    allocations := eraseOnce p g.allocations,
                    reference_count := rcErase p g.reference_count,
                    root_set := g.root_set.filter (fun q => q ≠ p) }

/-- Number of live headers with `marked = false`; the termination measure
of the recursive mark phase. -/
def unmarkedCount (hs : Headers) : Nat :=
  (hs.filter fun e => !e.2.marked).length

theorem unmarkedCount_set_true {hs : Headers} {a : Nat} {h : Hdr}
    (hL : lookupHdr hs a = some h) (hm : h.marked = false) :
    unmarkedCount (setMarked hs a true) < unmarkedCount hs := by
  induction hs with
  | nil => simp [lookupHdr] at hL
  | cons e rest ih =>
      obtain ⟨a', h'⟩ := e
      by_cases hc : a = a'
      · rw [lookupHdr, if_pos hc] at hL
        obtain rfl : h' = h := by injection hL
        rw [setMarked, if_pos hc]
        simp [unmarkedCount, List.filter, hm]
      · rw [lookupHdr, if_neg hc] at hL
        rw [setMarked, if_neg hc]
        have := ih hL
        simp only [unmarkedCount, List.filter] at *
        cases h'.marked <;> simpa using this

mutual
/-- GarbageCollector::walk_block: read the header before `p`; return if
already marked, otherwise set `marked = true` and scan the payload word by
word (the C++ reads a header even for untracked `p`, which is undefined;
callers only pass tracked addresses, and that case returns the state
unchanged here).  The result carries the fact that marking never increases
the number of unmarked headers, which drives termination. -/
def walk_block (allocs : List Nat) (mem : Nat → Nat) (hs : Headers) (p : Nat) :
    {r : Headers // unmarkedCount r ≤ unmarkedCount hs} :=
  match hL : lookupHdr hs (p - ALLOC_SIZE) with
  | none => ⟨hs, Nat.le_refl _⟩
  | some hdr =>
      if hm : hdr.marked then ⟨hs, Nat.le_refl _⟩
      else
        have hlt : unmarkedCount (setMarked hs (p - ALLOC_SIZE) true) < unmarkedCount hs :=
          unmarkedCount_set_true hL (by simpa using hm)
        match scan_words allocs mem (setMarked hs (p - ALLOC_SIZE) true) p hdr.size 0 with
        | ⟨r, hr⟩ => ⟨r, Nat.le_trans hr (Nat.le_of_lt hlt)⟩
termination_by (unmarkedCount hs, 0)
decreasing_by
  exact Prod.Lex.left _ _ hlt

/-- One word of the scan: `void *maybe_ptr = (void *)*scan;` followed by
the allocations-table membership test and the recursion into the found
block when it is unmarked. -/
def scan_step (allocs : List Nat) (mem : Nat → Nat) (hs : Headers) (w : Nat) :
    {r : Headers // unmarkedCount r ≤ unmarkedCount hs} :=
  if w ∈ allocs then
    match lookupHdr hs (w - ALLOC_SIZE) with
    | some h2 =>
        if h2.marked then ⟨hs, Nat.le_refl _⟩
        else walk_block allocs mem hs w
    | none => ⟨hs, Nat.le_refl _⟩
  else ⟨hs, Nat.le_refl _⟩
termination_by (unmarkedCount hs, 1)
decreasing_by
  exact Prod.Lex.right _ (by omega)

/-- The scan loop of walk_block: `uintptr_t *scan = p`, advancing one word
while `scan < p + size`. -/
def scan_words (allocs : List Nat) (mem : Nat → Nat) (hs : Headers)
    (p size off : Nat) : {r : Headers // unmarkedCount r ≤ unmarkedCount hs} :=
  if hoff : off < size then
    match scan_step allocs mem hs (loadWord mem (p + off)) with
    | ⟨hs', hle⟩ =>
        match scan_words allocs mem hs' p size (off + WORD) with
        | ⟨r, hr⟩ => ⟨r, Nat.le_trans hr hle⟩
  else ⟨hs, Nat.le_refl _⟩
termination_by (unmarkedCount hs, size + 1 - off)
decreasing_by
  · exact Prod.Lex.right _ (by omega)
  · simp only [WORD]
    rcases Nat.lt_or_eq_of_le hle with hlt | heq
    · exact Prod.Lex.left _ _ hlt
    · rw [heq]; exact Prod.Lex.right _ (by omega)
end

/-- The mark phase's initial pass: clear the `marked` flag of every entry
of the allocations table. -/
def clearAll (allocs : List Nat) (hs : Headers) : Headers :=
  allocs.foldl (fun hs p => setMarked hs (p - ALLOC_SIZE) false) hs

/-- The root traversal of GarbageCollector::mark: for each root present in
the allocations table, walk its block unless already marked.  A tracked
root whose header is not live would be an undefined read (`none`). -/
def markRoots (allocs : List Nat) (mem : Nat → Nat) : Headers → List Nat → Option Headers
  | hs, [] => some hs
  | hs, root :: rest =>
      if root ∈ allocs then
        match lookupHdr hs (root - ALLOC_SIZE) with
        | none => none
        | some hdr =>
            if hdr.marked then markRoots allocs mem hs rest
            else markRoots allocs mem (walk_block allocs mem hs root).1 rest
      else markRoots allocs mem hs rest

/-- GarbageCollector::mark: clear all markings, then traverse the root
multiset. -/
def mark (g : GC) : Option GC :=
  (markRoots g.allocations g.mem (clearAll g.allocations g.heap.headers) g.root_set).map
    fun hs1 => { g with heap := { g.heap with headers := hs1 } }

/-- One pass of the sweep scan: skip marked blocks in table order and
return the first unmarked one (`some none` when the whole table is marked,
`none` for the undefined read of a missing header). -/
def findUnmarked (hs : Headers) : List Nat → Option (Option Nat)
  | [] => some none
  | p :: rest =>
      match lookupHdr hs (p - ALLOC_SIZE) with
      | none => none
      | some hdr => if hdr.marked then findUnmarked hs rest else some (some p)

theorem findUnmarked_mem {hs : Headers} {l : List Nat} {p : Nat}
    (h : findUnmarked hs l = some (some p)) : p ∈ l := by
  induction l with
  | nil => simp [findUnmarked] at h
  | cons q rest ih =>
      rw [findUnmarked] at h
      split at h
      · simp at h
      · split at h
        · exact List.mem_cons_of_mem _ (ih h)
        · obtain rfl : q = p := by injection h with h'; injection h'
          exact List.mem_cons_self _ _

theorem eraseOnce_length {p : Nat} {l : List Nat} (h : p ∈ l) :
    (eraseOnce p l).length < l.length := by
  induction l with
  | nil => simp at h
  | cons q rest ih =>
      rw [eraseOnce]
      by_cases hc : p = q
      · rw [if_pos hc]; simp
      · rw [if_neg hc]
        have : p ∈ rest := by
          rcases List.mem_cons.mp h with h' | h'
          · exact absurd h' hc
          · exact h'
        simpa using ih this

theorem GC_free_allocations {g g' : GC} {p : Nat} (h : GC_free g p = some g') :
    g'.allocations = eraseOnce p g.allocations := by
  unfold GC_free at h
  match hf : my_free g.heap p with
  | none => rw [hf] at h; simp at h
  | some h' => rw [hf] at h; injection h with h; rw [← h]

theorem GC_free_rc {g g' : GC} {p : Nat} (h : GC_free g p = some g') :
    g'.reference_count = rcErase p g.reference_count := by
  unfold GC_free at h
  match hf : my_free g.heap p with
  | none => rw [hf] at h; simp at h
  | some h' => rw [hf] at h; injection h with h; rw [← h]

/-- The loop of GarbageCollector::sweep: free the first unmarked block and
restart from the beginning of the allocations table (the C++ restarts its
iterator after every erasure; skipping marked entries and restarting is
the same as repeatedly freeing the first unmarked entry in table order). -/
def sweepGo (g : GC) : Option (List Nat × GC) :=
  match hFind : findUnmarked g.heap.headers g.allocations with
  | none => none
  | some none => some ([], g)
  | some (some dead) =>
      match hFree : GC_free g dead with
      | none => none
      | some g' =>
          match sweepGo g' with
          | none => none
          | some (l, g'') => some (dead :: l, g'')
termination_by g.allocations.length
decreasing_by
  rw [GC_free_allocations hFree]
  exact eraseOnce_length (findUnmarked_mem hFind)

/-- GarbageCollector::sweep: run the loop; if the allocations table ends up
empty, call Heap::reset, which re-mmaps the region (zero-filled) and
rebuilds the single-node free list. -/
def sweep (g : GC) : Option (List Nat × GC) :=
  (sweepGo g).map fun r =>
    if r.2.allocations.isEmpty then
      (r.1, { r.2 with heap := freshHeap, mem := fun _ => 0 })
    else r

/-- GarbageCollector::ms_collect = mark; sweep. -/
def ms_collect (g : GC) : Option (List Nat × GC) :=
  match mark g with
  | none => none
  | some g' => sweep g'

/-- The scan of rc_collect: first entry of the reference-count table (in
key order) with count ≤ 0. -/
def rcFindDead : RCMap → Option Nat
  | [] => none
  | (p, c) :: rest => if c ≤ 0 then some p else rcFindDead rest

theorem rcFindDead_mem {rc : RCMap} {p : Nat} (h : rcFindDead rc = some p) :
    p ∈ rc.map Prod.fst := by
  induction rc with
  | nil => simp [rcFindDead] at h
  | cons e rest ih =>
      obtain ⟨q, c⟩ := e
      rw [rcFindDead] at h
      by_cases hc : c ≤ 0
      · rw [if_pos hc] at h
        injection h with h
        simp [h]
      · rw [if_neg hc] at h
        simpa using Or.inr (ih h)

theorem rcErase_length {p : Nat} {rc : RCMap} (h : p ∈ rc.map Prod.fst) :
    (rcErase p rc).length < rc.length := by
  induction rc with
  | nil => simp at h
  | cons e rest ih =>
      obtain ⟨q, c⟩ := e
      rw [rcErase]
      by_cases hc : p = q
      · rw [if_pos hc]; simp
      · rw [if_neg hc]
        have : p ∈ rest.map Prod.fst := by
          rcases List.mem_map.mp h with ⟨⟨q', c'⟩, hmem, hq⟩
          rcases List.mem_cons.mp hmem with h' | h'
          · exact absurd (by rw [← hq, h']) hc
          · exact List.mem_map.mpr ⟨_, h', hq⟩
        simpa using ih this

/-- GarbageCollector::rc_collect: destroy the first table entry with count
≤ 0 and restart the iteration from the beginning, until none is left. -/
def rc_collect (g : GC) : Option (List Nat × GC) :=
  match hFind : rcFindDead g.reference_count with
  | none => some ([], g)
  | some dead =>
      match hFree : GC_free g dead with
      | none => none
      | some g' =>
          match rc_collect g' with
          | none => none
          | some (l, g'') => some (dead :: l, g'')
termination_by g.reference_count.length
decreasing_by
  have := GC_free_rc hFree
  rw [this]
  exact rcErase_length (rcFindDead_mem hFind)

/-! Scenario builders used by the behavioural claims. -/

/-- Scenario S2 of the spec: two tracked allocations joined in a cycle by
two nested references, then one `delete_root` on each block. -/
def buildCycle (s1 s2 : Nat) : Option GC :=
  match gc_malloc freshGC s1 with
  | (none, _) => none
  | (some p1, g1) =>
      match gc_malloc g1 s2 with
      | (none, _) => none
      | (some p2, g2) =>
          match add_nested_reference g2 p1 p2 with
          | none => none
          | some (_, g3) =>
              match add_nested_reference g3 p2 p1 with
              | none => none
              | some (_, g4) =>
                  some (delete_reference (delete_reference g4 p1) p2)

/-- The linear chain A→B→C with only A's root dropped. -/
def buildChain (s1 s2 s3 : Nat) : Option GC :=
  match gc_malloc freshGC s1 with
  | (none, _) => none
  | (some a, g1) =>
      match gc_malloc g1 s2 with
      | (none, _) => none
      | (some b, g2) =>
          match gc_malloc g2 s3 with
          | (none, _) => none
          | (some c, g3) =>
              match add_nested_reference g3 a b with
              | none => none
              | some (_, g4) =>
                  match add_nested_reference g4 b c with
                  | none => none
                  | some (_, g5) => some (delete_reference g5 a)

/-- Two raw allocations of the same size followed by two raw frees, in
either order (law L2 / scenario S4). -/
def twoAllocTwoFree (S : Nat) (firstP1 : Bool) : Option HeapState :=
  match my_malloc freshHeap S with
  | none => none
  | some (p1, h1) =>
      match my_malloc h1 S with
      | none => none
      | some (p2, h2) =>
          if firstP1 then
            match my_free h2 p1 with
            | none => none
            | some h3 => my_free h3 p2
          else
            match my_free h2 p2 with
            | none => none
            | some h3 => my_free h3 p1

theorem mod_U64 {a : Nat} (h : a < U64) : a % U64 = a := Nat.mod_eq_of_lt h

/-- Evaluating my_malloc on a one-node free list with a clean fit. -/
theorem my_malloc_single (a sz S : Nat) (hs : Headers)
    (hfit : S + ALLOC_SIZE ≤ sz) (hsz : sz < U64) (ha : a + sz < U64) :
    my_malloc ⟨[⟨a, sz⟩], hs⟩ S =
      some (a + ALLOC_SIZE,
        ⟨[⟨a + (S + ALLOC_SIZE), sz - (S + ALLOC_SIZE)⟩], (a, ⟨S, false⟩) :: hs⟩) := by
  have hS : S ≤ sz := Nat.le_trans (Nat.le_add_right _ _) hfit
  have hact : (S + ALLOC_SIZE) % U64 = S + ALLOC_SIZE :=
    mod_U64 (Nat.lt_of_le_of_lt hfit hsz)
  have haddr : (a + (S + ALLOC_SIZE)) % U64 = a + (S + ALLOC_SIZE) :=
    mod_U64 (by omega)
  unfold my_malloc
  rw [show find_free S [(⟨a, sz⟩ : FNode)] = some ([], ⟨a, sz⟩, []) from by
        unfold find_free; rw [if_pos hS]]
  dsimp only
  rw [hact, haddr, sub64_of_le hfit hsz]
  simp

/-- gc_malloc on allocator success, spelled out. -/
theorem gc_malloc_some {g : GC} {S p : Nat} {h' : HeapState}
    (hm : my_malloc g.heap S = some (p, h')) :
    gc_malloc g S =
      (some p, ⟨h', insort p g.allocations, insort p g.root_set,
                rcIncr p g.reference_count, g.mem⟩) := by
  unfold gc_malloc
  rw [hm]
  rfl

/-- gc_malloc on allocator failure: NULL and no collector-state change. -/
theorem gc_malloc_none {g : GC} {S : Nat} (hm : my_malloc g.heap S = none) :
    gc_malloc g S = (none, g) := by
  unfold gc_malloc
  rw [hm]

/-- The collector state reached by scenario S2: blocks of sizes `s1`, `s2`
at user addresses 16 and s1+32, cyclically referencing one another, both
roots dropped, both counts still 1. -/
def gCycle (s1 s2 : Nat) : GC :=
  ⟨⟨[⟨s1 + s2 + 32, 4048 - s1 - s2⟩],
    [(s1 + 16, ⟨s2, false⟩), (0, ⟨s1, false⟩)]⟩,
   [16, s1 + 32],
   [],
   [(16, 1), (s1 + 32, 1)],
   storeWord (storeWord (fun _ => 0) 16 (s1 + 32)) (s1 + 32) 16⟩

theorem buildCycle_eq (s1 s2 : Nat) (h1 : WORD ≤ s1) (h2 : WORD ≤ s2)
    (hfit : s1 + s2 + 2 * ALLOC_SIZE + NODE_SIZE ≤ HEAP_SIZE) :
    buildCycle s1 s2 = some (gCycle s1 s2) := by
  have h1' : 8 ≤ s1 := by simpa [WORD] using h1
  have h2' : 8 ≤ s2 := by simpa [WORD] using h2
  have hfit' : s1 + s2 ≤ 4048 := by
    simp only [ALLOC_SIZE, NODE_SIZE, HEAP_SIZE] at hfit; omega
  have hU : (4096 : Nat) < U64 := by rw [U64_val]; norm_num
  -- first tracked allocation: user address 16
  have m1 : my_malloc freshHeap s1 =
      some (16, ⟨[⟨s1 + 16, 4064 - s1⟩], [(0, ⟨s1, false⟩)]⟩) := by
    have e := my_malloc_single 0 4080 s1 [] (by simp only [ALLOC_SIZE]; omega)
      (by omega) (by omega)
    rw [show (4080 : Nat) - (s1 + ALLOC_SIZE) = 4064 - s1 from by
          simp only [ALLOC_SIZE]; omega,
        show (0 : Nat) + (s1 + ALLOC_SIZE) = s1 + 16 from by
          simp only [ALLOC_SIZE]; omega,
        show (0 : Nat) + ALLOC_SIZE = 16 from by simp only [ALLOC_SIZE]] at e
    exact e
  have G1 : gc_malloc freshGC s1 =
      (some 16, ⟨⟨[⟨s1 + 16, 4064 - s1⟩], [(0, ⟨s1, false⟩)]⟩,
                 [16], [16], [(16, 1)], fun _ => 0⟩) := by
    have e := gc_malloc_some (g := freshGC) m1
    simpa [freshGC, insort, rcIncr] using e
  -- second tracked allocation: user address s1 + 32
  have m2 : my_malloc (⟨[⟨s1 + 16, 4064 - s1⟩], [(0, ⟨s1, false⟩)]⟩ : HeapState) s2 =
      some (s1 + 32,
        ⟨[⟨s1 + s2 + 32, 4048 - s1 - s2⟩],
         [(s1 + 16, ⟨s2, false⟩), (0, ⟨s1, false⟩)]⟩) := by
    have e := my_malloc_single (s1 + 16) (4064 - s1) s2 [(0, ⟨s1, false⟩)]
      (by simp only [ALLOC_SIZE]; omega) (by omega) (by omega)
    rw [show (4064 : Nat) - s1 - (s2 + ALLOC_SIZE) = 4048 - s1 - s2 from by
          simp only [ALLOC_SIZE]; omega,
        show s1 + 16 + (s2 + ALLOC_SIZE) = s1 + s2 + 32 from by
          simp only [ALLOC_SIZE]; omega,
        show s1 + 16 + ALLOC_SIZE = s1 + 32 from by norm_num [ALLOC_SIZE]] at e
    exact e
  have G2 : gc_malloc (⟨⟨[⟨s1 + 16, 4064 - s1⟩], [(0, ⟨s1, false⟩)]⟩,
                        [16], [16], [(16, 1)], fun _ => 0⟩ : GC) s2 =
      (some (s1 + 32),
       ⟨⟨[⟨s1 + s2 + 32, 4048 - s1 - s2⟩],
         [(s1 + 16, ⟨s2, false⟩), (0, ⟨s1, false⟩)]⟩,
        [16, s1 + 32], [16, s1 + 32], [(16, 1), (s1 + 32, 1)], fun _ => 0⟩) := by
    have e := gc_malloc_some
      (g := ⟨⟨[⟨s1 + 16, 4064 - s1⟩], [(0, ⟨s1, false⟩)]⟩,
             [16], [16], [(16, 1)], fun _ => 0⟩) m2
    dsimp only at e
    rw [e]
    rw [show insort (s1 + 32) [16] = [16, s1 + 32] from by
          simp only [insort]; rw [if_neg (by omega)],
        show rcIncr (s1 + 32) [(16, 1)] = [(16, 1), (s1 + 32, 1)] from by
          simp only [rcIncr]; rw [if_neg (by omega), if_neg (by omega)]]
  -- first nested reference: 16 → s1 + 32
  have N1 : add_nested_reference
      (⟨⟨[⟨s1 + s2 + 32, 4048 - s1 - s2⟩],
         [(s1 + 16, ⟨s2, false⟩), (0, ⟨s1, false⟩)]⟩,
        [16, s1 + 32], [16, s1 + 32], [(16, 1), (s1 + 32, 1)], fun _ => 0⟩ : GC)
      16 (s1 + 32) =
      some (0,
        ⟨⟨[⟨s1 + s2 + 32, 4048 - s1 - s2⟩],
          [(s1 + 16, ⟨s2, false⟩), (0, ⟨s1, false⟩)]⟩,
         [16, s1 + 32], [16, s1 + 32], [(16, 1), (s1 + 32, 2)],
         storeWord (fun _ => 0) 16 (s1 + 32)⟩) := by
    unfold add_nested_reference
    dsimp only
    rw [show (16 : Nat) - ALLOC_SIZE = 0 from by simp [ALLOC_SIZE]]
    rw [show lookupHdr [(s1 + 16, ⟨s2, false⟩), (0, ⟨s1, false⟩)] 0 =
          some ⟨s1, false⟩ from by
        simp only [lookupHdr]; rw [if_neg (by omega)]; simp]
    dsimp only
    rw [if_pos (show WORD ≤ s1 from h1)]
    rw [show rcIncr (s1 + 32) [(16, 1), (s1 + 32, 1)] = [(16, 1), (s1 + 32, 2)] from by
          simp only [rcIncr]; rw [if_neg (by omega), if_neg (by omega)]; simp]
  -- second nested reference: s1 + 32 → 16
  have N2 : add_nested_reference
      (⟨⟨[⟨s1 + s2 + 32, 4048 - s1 - s2⟩],
         [(s1 + 16, ⟨s2, false⟩), (0, ⟨s1, false⟩)]⟩,
        [16, s1 + 32], [16, s1 + 32], [(16, 1), (s1 + 32, 2)],
        storeWord (fun _ => 0) 16 (s1 + 32)⟩ : GC)
      (s1 + 32) 16 =
      some (0,
        ⟨⟨[⟨s1 + s2 + 32, 4048 - s1 - s2⟩],
          [(s1 + 16, ⟨s2, false⟩), (0, ⟨s1, false⟩)]⟩,
         [16, s1 + 32], [16, s1 + 32], [(16, 2), (s1 + 32, 2)],
         storeWord (storeWord (fun _ => 0) 16 (s1 + 32)) (s1 + 32) 16⟩) := by
    unfold add_nested_reference
    dsimp only
    rw [show s1 + 32 - ALLOC_SIZE = s1 + 16 from by simp only [ALLOC_SIZE]; omega]
    rw [show lookupHdr [(s1 + 16, ⟨s2, false⟩), (0, ⟨s1, false⟩)] (s1 + 16) =
          some ⟨s2, false⟩ from by simp [lookupHdr]]
    dsimp only
    rw [if_pos (show WORD ≤ s2 from h2)]
    rw [show rcIncr 16 [(16, 1), (s1 + 32, 2)] = [(16, 2), (s1 + 32, 2)] from by
          simp [rcIncr]]
  -- drop both roots
  have D1 : delete_reference
      (⟨⟨[⟨s1 + s2 + 32, 4048 - s1 - s2⟩],
         [(s1 + 16, ⟨s2, false⟩), (0, ⟨s1, false⟩)]⟩,
        [16, s1 + 32], [16, s1 + 32], [(16, 2), (s1 + 32, 2)],
        storeWord (storeWord (fun _ => 0) 16 (s1 + 32)) (s1 + 32) 16⟩ : GC) 16 =
      ⟨⟨[⟨s1 + s2 + 32, 4048 - s1 - s2⟩],
        [(s1 + 16, ⟨s2, false⟩), (0, ⟨s1, false⟩)]⟩,
       [16, s1 + 32], [s1 + 32], [(16, 1), (s1 + 32, 2)],
       storeWord (storeWord (fun _ => 0) 16 (s1 + 32)) (s1 + 32) 16⟩ := by
    unfold delete_reference
    dsimp only
    rw [if_pos (show (16 : Nat) ∈ [16, s1 + 32] from by simp)]
    rw [show eraseOnce 16 [16, s1 + 32] = [s1 + 32] from by simp [eraseOnce]]
    rw [show rcDecClamp 16 [(16, 2), (s1 + 32, 2)] = [(16, 1), (s1 + 32, 2)] from by
          simp [rcDecClamp]]
  have D2 : delete_reference
      (⟨⟨[⟨s1 + s2 + 32, 4048 - s1 - s2⟩],
         [(s1 + 16, ⟨s2, false⟩), (0, ⟨s1, false⟩)]⟩,
        [16, s1 + 32], [s1 + 32], [(16, 1), (s1 + 32, 2)],
        storeWord (storeWord (fun _ => 0) 16 (s1 + 32)) (s1 + 32) 16⟩ : GC)
      (s1 + 32) = gCycle s1 s2 := by
    unfold delete_reference
    dsimp only
    rw [if_pos (show s1 + 32 ∈ [s1 + 32] from by simp)]
    rw [show eraseOnce (s1 + 32) [s1 + 32] = [] from by simp [eraseOnce]]
    rw [show rcDecClamp (s1 + 32) [(16, 1), (s1 + 32, 2)] =
          [(16, 1), (s1 + 32, 1)] from by
        simp only [rcDecClamp]; rw [if_neg (by omega)]; simp]
    rfl
  unfold buildCycle
  rw [G1]
  dsimp only
  rw [G2]
  dsimp only
  rw [N1]
  dsimp only
  rw [N2]
  dsimp only
  rw [D1, D2]

/-- The payload memory of the cycle scenario: the two mutual pointers. -/
def memCycle (s1 : Nat) : Nat → Nat :=
  storeWord (storeWord (fun _ => 0) 16 (s1 + 32)) (s1 + 32) 16

theorem rc_collect_gCycle (s1 s2 : Nat) :
    rc_collect (gCycle s1 s2) = some ([], gCycle s1 s2) := by
  rw [rc_collect.eq_def]
  split
  · rfl
  · rename_i dead hd
    rw [show rcFindDead (gCycle s1 s2).reference_count = none from by
          simp [gCycle, rcFindDead]] at hd
    exact absurd hd (by simp)

theorem mark_gCycle (s1 s2 : Nat) (h1 : 8 ≤ s1) (h2 : 8 ≤ s2) :
    mark (gCycle s1 s2) = some (gCycle s1 s2) := by
  have sm1 : setMarked [(s1 + 16, ⟨s2, false⟩), (0, ⟨s1, false⟩)] (16 - ALLOC_SIZE) false
      = [(s1 + 16, ⟨s2, false⟩), (0, ⟨s1, false⟩)] := by
    rw [show (16 : Nat) - ALLOC_SIZE = 0 from by simp [ALLOC_SIZE]]
    simp only [setMarked]
    rw [if_neg (by omega)]
    simp
  have sm2 : setMarked [(s1 + 16, ⟨s2, false⟩), (0, ⟨s1, false⟩)] (s1 + 32 - ALLOC_SIZE) false
      = [(s1 + 16, ⟨s2, false⟩), (0, ⟨s1, false⟩)] := by
    rw [show s1 + 32 - ALLOC_SIZE = s1 + 16 from by simp only [ALLOC_SIZE]; omega]
    simp [setMarked]
  have clr : clearAll [16, s1 + 32] [(s1 + 16, ⟨s2, false⟩), (0, ⟨s1, false⟩)]
      = [(s1 + 16, ⟨s2, false⟩), (0, ⟨s1, false⟩)] := by
    unfold clearAll
    simp only [List.foldl_cons, List.foldl_nil]
    rw [sm1, sm2]
  unfold mark
  dsimp only [gCycle]
  rw [clr]
  rfl

theorem ms_collect_gCycle (s1 s2 : Nat) (h1 : 8 ≤ s1) (h2 : 8 ≤ s2)
    (hfit : s1 + s2 ≤ 4048) :
    ms_collect (gCycle s1 s2) =
      some ([16, s1 + 32], ⟨freshHeap, [], [], [], fun _ => 0⟩) := by
  -- heap-level effects of freeing the two blocks
  have c1 : coalesce ⟨0, s1⟩ [⟨s1 + s2 + 32, 4048 - s1 - s2⟩] =
      some [⟨0, s1⟩, ⟨s1 + s2 + 32, 4048 - s1 - s2⟩] := by
    unfold coalesce
    rw [List.takeWhile_cons_of_neg (by simp), List.dropWhile_cons_of_neg (by simp)]
    dsimp only
    rw [if_neg (show ¬((0 + s1 + NODE_SIZE) % U64 = s1 + s2 + 32) from by
          simp only [NODE_SIZE, U64_val]; omega)]
    rfl
  have c2 : coalesce ⟨s1 + 16, s2⟩ [⟨0, s1⟩, ⟨s1 + s2 + 32, 4048 - s1 - s2⟩] =
      some [⟨0, 4080⟩] := by
    unfold coalesce
    rw [List.takeWhile_cons_of_pos (by simp only [decide_eq_true_eq]; omega),
        List.takeWhile_cons_of_neg (by simp only [decide_eq_true_eq]; omega),
        List.dropWhile_cons_of_pos (by simp only [decide_eq_true_eq]; omega),
        List.dropWhile_cons_of_neg (by simp only [decide_eq_true_eq]; omega)]
    dsimp only
    rw [if_pos (show (s1 + 16 + s2 + NODE_SIZE) % U64 = s1 + s2 + 32 from by
          simp only [NODE_SIZE, U64_val]; omega)]
    rw [show List.getLast? [(⟨0, s1⟩ : FNode)] = some ⟨0, s1⟩ from by simp]
    dsimp only
    rw [if_pos (show (0 + s1 + NODE_SIZE) % U64 = s1 + 16 from by
          simp only [NODE_SIZE, U64_val]; omega)]
    rw [show (s2 + (4048 - s1 - s2) + NODE_SIZE) % U64 = 4064 - s1 from by
          simp only [NODE_SIZE, U64_val]; omega]
    rw [show (s1 + (4064 - s1) + NODE_SIZE) % U64 = 4080 from by
          simp only [NODE_SIZE, U64_val]; omega]
    simp
  -- freeing block 1 (user address 16)
  have mf1 : my_free (⟨[⟨s1 + s2 + 32, 4048 - s1 - s2⟩],
        [(s1 + 16, ⟨s2, false⟩), (0, ⟨s1, false⟩)]⟩ : HeapState) 16 =
      some ⟨[⟨0, s1⟩, ⟨s1 + s2 + 32, 4048 - s1 - s2⟩], [(s1 + 16, ⟨s2, false⟩)]⟩ := by
    unfold my_free
    dsimp only
    rw [show (16 : Nat) - ALLOC_SIZE = 0 from by simp [ALLOC_SIZE]]
    rw [show lookupHdr [(s1 + 16, ⟨s2, false⟩), (0, ⟨s1, false⟩)] 0 =
          some ⟨s1, false⟩ from by
        simp only [lookupHdr]; rw [if_neg (by omega)]; simp]
    dsimp only
    rw [c1]
    rw [show eraseHdr [(s1 + 16, ⟨s2, false⟩), (0, ⟨s1, false⟩)] 0 =
          [(s1 + 16, ⟨s2, false⟩)] from by
        simp only [eraseHdr]; rw [if_neg (by omega)]; simp]
  -- freeing block 2 (user address s1 + 32)
  have mf2 : my_free (⟨[⟨0, s1⟩, ⟨s1 + s2 + 32, 4048 - s1 - s2⟩],
        [(s1 + 16, ⟨s2, false⟩)]⟩ : HeapState) (s1 + 32) =
      some ⟨[⟨0, 4080⟩], []⟩ := by
    unfold my_free
    dsimp only
    rw [show s1 + 32 - ALLOC_SIZE = s1 + 16 from by simp only [ALLOC_SIZE]; omega]
    rw [show lookupHdr [(s1 + 16, ⟨s2, false⟩)] (s1 + 16) = some ⟨s2, false⟩ from by
          simp [lookupHdr]]
    dsimp only
    rw [c2]
    rw [show eraseHdr [(s1 + 16, ⟨s2, false⟩)] (s1 + 16) = [] from by
          simp [eraseHdr]]
  have GCf1 : GC_free (gCycle s1 s2) 16 =
      some ⟨⟨[⟨0, s1⟩, ⟨s1 + s2 + 32, 4048 - s1 - s2⟩], [(s1 + 16, ⟨s2, false⟩)]⟩,
            [s1 + 32], [], [(s1 + 32, 1)], memCycle s1⟩ := by
    unfold GC_free
    dsimp only [gCycle]
    rw [mf1]
    dsimp only
    rw [show eraseOnce 16 [16, s1 + 32] = [s1 + 32] from by simp [eraseOnce],
        show rcErase 16 [(16, 1), (s1 + 32, 1)] = [(s1 + 32, 1)] from by
          simp [rcErase]]
    rfl
  have GCf2 : GC_free (⟨⟨[⟨0, s1⟩, ⟨s1 + s2 + 32, 4048 - s1 - s2⟩],
        [(s1 + 16, ⟨s2, false⟩)]⟩, [s1 + 32], [], [(s1 + 32, 1)], memCycle s1⟩ : GC)
      (s1 + 32) =
      some ⟨⟨[⟨0, 4080⟩], []⟩, [], [], [], memCycle s1⟩ := by
    unfold GC_free
    dsimp only
    rw [mf2]
    dsimp only
    rw [show eraseOnce (s1 + 32) [s1 + 32] = [] from by simp [eraseOnce],
        show rcErase (s1 + 32) [(s1 + 32, 1)] = [] from by simp [rcErase]]
    rfl
  have fU1 : findUnmarked [(s1 + 16, ⟨s2, false⟩), (0, ⟨s1, false⟩)] [16, s1 + 32] =
      some (some 16) := by
    unfold findUnmarked
    rw [show (16 : Nat) - ALLOC_SIZE = 0 from by simp [ALLOC_SIZE]]
    rw [show lookupHdr [(s1 + 16, ⟨s2, false⟩), (0, ⟨s1, false⟩)] 0 =
          some ⟨s1, false⟩ from by
        simp only [lookupHdr]; rw [if_neg (by omega)]; simp]
    rfl
  have fU2 : findUnmarked [(s1 + 16, ⟨s2, false⟩)] [s1 + 32] = some (some (s1 + 32)) := by
    unfold findUnmarked
    rw [show s1 + 32 - ALLOC_SIZE = s1 + 16 from by simp only [ALLOC_SIZE]; omega]
    rw [show lookupHdr [(s1 + 16, ⟨s2, false⟩)] (s1 + 16) = some ⟨s2, false⟩ from by
          simp [lookupHdr]]
    rfl
  -- the sweep loop, innermost call first
  have sg3 : sweepGo (⟨⟨[⟨0, 4080⟩], []⟩, [], [], [], memCycle s1⟩ : GC) =
      some ([], ⟨⟨[⟨0, 4080⟩], []⟩, [], [], [], memCycle s1⟩) := by
    rw [sweepGo.eq_def]
    split
    · rename_i hFind
      exact absurd hFind (by simp [findUnmarked])
    · rfl
    · rename_i dead hFind
      exact absurd hFind (by simp [findUnmarked])
  have sg2 : sweepGo (⟨⟨[⟨0, s1⟩, ⟨s1 + s2 + 32, 4048 - s1 - s2⟩],
        [(s1 + 16, ⟨s2, false⟩)]⟩, [s1 + 32], [], [(s1 + 32, 1)], memCycle s1⟩ : GC) =
      some ([s1 + 32], ⟨⟨[⟨0, 4080⟩], []⟩, [], [], [], memCycle s1⟩) := by
    rw [sweepGo.eq_def]
    split
    · rename_i hFind
      rw [fU2] at hFind
      exact absurd hFind (by simp)
    · rename_i hFind
      rw [fU2] at hFind
      exact absurd hFind (by simp)
    · rename_i dead hFind
      rw [fU2] at hFind
      obtain rfl : s1 + 32 = dead := by
        injection hFind with h'; injection h'
      split
      · rename_i hFree
        rw [GCf2] at hFree
        exact absurd hFree (by simp)
      · rename_i g' hFree
        rw [GCf2] at hFree
        obtain rfl : (⟨⟨[⟨0, 4080⟩], []⟩, [], [], [], memCycle s1⟩ : GC) = g' := by
          injection hFree
        rw [sg3]
  have sg1 : sweepGo (gCycle s1 s2) =
      some ([16, s1 + 32], ⟨⟨[⟨0, 4080⟩], []⟩, [], [], [], memCycle s1⟩) := by
    rw [sweepGo.eq_def]
    split
    · rename_i hFind
      rw [show (gCycle s1 s2).heap.headers =
            [(s1 + 16, ⟨s2, false⟩), (0, ⟨s1, false⟩)] from rfl,
          show (gCycle s1 s2).allocations = [16, s1 + 32] from rfl, fU1] at hFind
      exact absurd hFind (by simp)
    · rename_i hFind
      rw [show (gCycle s1 s2).heap.headers =
            [(s1 + 16, ⟨s2, false⟩), (0, ⟨s1, false⟩)] from rfl,
          show (gCycle s1 s2).allocations = [16, s1 + 32] from rfl, fU1] at hFind
      exact absurd hFind (by simp)
    · rename_i dead hFind
      rw [show (gCycle s1 s2).heap.headers =
            [(s1 + 16, ⟨s2, false⟩), (0, ⟨s1, false⟩)] from rfl,
          show (gCycle s1 s2).allocations = [16, s1 + 32] from rfl, fU1] at hFind
      obtain rfl : (16 : Nat) = dead := by
        injection hFind with h'; injection h'
      split
      · rename_i hFree
        rw [GCf1] at hFree
        exact absurd hFree (by simp)
      · rename_i g' hFree
        rw [GCf1] at hFree
        obtain rfl : (⟨⟨[⟨0, s1⟩, ⟨s1 + s2 + 32, 4048 - s1 - s2⟩],
              [(s1 + 16, ⟨s2, false⟩)]⟩, [s1 + 32], [], [(s1 + 32, 1)],
              memCycle s1⟩ : GC) = g' := by
          injection hFree
        rw [sg2]
  -- assemble mark, sweep
  unfold ms_collect
  rw [mark_gCycle s1 s2 h1 h2]
  dsimp only
  unfold sweep
  rw [sg1]
  simp only [Option.map_some]
  rfl

/-- Claim C1: for every two blocks p1, p2 obtained from tracked allocation
(sizes s1, s2, each able to hold one pointer word, jointly fitting the
region) and joined in a cycle by add_nested_reference(p1,p2) and
add_nested_reference(p2,p1), after one delete_root on each (so no
outstanding roots remain), a single ms_collect reclaims both blocks (here
p1 = 16 and p2 = s1 + 32, in destruction order) and the heap returns to
the initial free state: available_memory() = REGION_SIZE - sizeof(node)
= 4080 under the defaults. -/
theorem C1_ms_collect_reclaims_cycle (s1 s2 : Nat)
    (h1 : WORD ≤ s1) (h2 : WORD ≤ s2)
    (hfit : s1 + s2 + 2 * ALLOC_SIZE + NODE_SIZE ≤ HEAP_SIZE) :
    ∀ g, buildCycle s1 s2 = some g →
      ms_collect g = some ([16, s1 + 32], ⟨freshHeap, [], [], [], fun _ => 0⟩) ∧
      available_memory freshHeap = HEAP_SIZE - NODE_SIZE ∧
      HEAP_SIZE - NODE_SIZE = 4080 := by
  intro g hg
  rw [buildCycle_eq s1 s2 h1 h2 hfit] at hg
  obtain rfl : gCycle s1 s2 = g := by injection hg
  refine ⟨?_, by decide, by decide⟩
  exact ms_collect_gCycle s1 s2 (by simpa [WORD] using h1) (by simpa [WORD] using h2)
    (by simp only [ALLOC_SIZE, NODE_SIZE, HEAP_SIZE] at hfit; omega)

/-- Witness for C1 at the spec's S2 sizes (100, 100). -/
theorem C1_witness :
    ms_collect (gCycle 100 100) =
      some ([16, 132], ⟨freshHeap, [], [], [], fun _ => 0⟩) := by
  have h := C1_ms_collect_reclaims_cycle 100 100 (by decide) (by decide) (by decide)
    (gCycle 100 100) (buildCycle_eq 100 100 (by decide) (by decide) (by decide))
  have h1 := h.1
  norm_num at h1
  exact h1

/-- Claim C2: for every two blocks with mutual nested references and no
outstanding roots (each block's root deleted once after allocation),
rc_collect reclaims nothing: the returned list is empty, the collector
state (in particular the allocations table, with both blocks) is
unchanged, available_memory is unchanged at
REGION_SIZE - sizeof(node) - (s1 + sizeof(header)) - (s2 + sizeof(header))
(3848 in the S2 scenario), because each block's reference count is
still 1 from the nested reference. -/
theorem C2_rc_collect_keeps_cycle (s1 s2 : Nat)
    (h1 : WORD ≤ s1) (h2 : WORD ≤ s2)
    (hfit : s1 + s2 + 2 * ALLOC_SIZE + NODE_SIZE ≤ HEAP_SIZE) :
    ∀ g, buildCycle s1 s2 = some g →
      rc_collect g = some ([], g) ∧
      g.allocations = [16, s1 + 32] ∧
      lookupRC g.reference_count 16 = some 1 ∧
      lookupRC g.reference_count (s1 + 32) = some 1 ∧
      available_memory g.heap =
        HEAP_SIZE - NODE_SIZE - (s1 + ALLOC_SIZE) - (s2 + ALLOC_SIZE) := by
  intro g hg
  rw [buildCycle_eq s1 s2 h1 h2 hfit] at hg
  obtain rfl : gCycle s1 s2 = g := by injection hg
  have hfit' : s1 + s2 ≤ 4048 := by
    simp only [ALLOC_SIZE, NODE_SIZE, HEAP_SIZE] at hfit; omega
  refine ⟨rc_collect_gCycle s1 s2, rfl, by simp [gCycle, lookupRC], ?_, ?_⟩
  · show lookupRC [(16, 1), (s1 + 32, 1)] (s1 + 32) = some 1
    simp only [lookupRC]
    rw [if_neg (by omega)]
    simp
  · show (List.map FNode.size [⟨s1 + s2 + 32, 4048 - s1 - s2⟩]).sum = _
    simp only [List.map, List.sum_cons, List.sum_nil, ALLOC_SIZE, NODE_SIZE, HEAP_SIZE]
    omega

/-- Witness for C2 at the spec's S2 sizes: the cycle survives rc_collect
and available memory stays at 3848. -/
theorem C2_witness :
    rc_collect (gCycle 100 100) = some ([], gCycle 100 100) ∧
    available_memory (gCycle 100 100).heap = 3848 := by
  have h := C2_rc_collect_keeps_cycle 100 100 (by decide) (by decide) (by decide)
    (gCycle 100 100) (buildCycle_eq 100 100 (by decide) (by decide) (by decide))
  exact ⟨h.1, by decide⟩

/-- The payload memory of the chain scenario A→B→C. -/
def memChain (s1 s2 : Nat) : Nat → Nat :=
  storeWord (storeWord (fun _ => 0) 16 (s1 + 32)) (s1 + 32) (s1 + s2 + 48)

/-- The collector state of the chain scenario: blocks A, B, C of sizes
s1, s2, s3 at user addresses 16, s1+32, s1+s2+48; A→B and B→C installed;
only A's root dropped, so refcount[A] = 0 while B and C still count 2. -/
def gChain (s1 s2 s3 : Nat) : GC :=
  ⟨⟨[⟨s1 + s2 + s3 + 48, 4032 - s1 - s2 - s3⟩],
    [(s1 + s2 + 32, ⟨s3, false⟩), (s1 + 16, ⟨s2, false⟩), (0, ⟨s1, false⟩)]⟩,
   [16, s1 + 32, s1 + s2 + 48],
   [s1 + 32, s1 + s2 + 48],
   [(16, 0), (s1 + 32, 2), (s1 + s2 + 48, 2)],
   memChain s1 s2⟩

theorem buildChain_eq (s1 s2 s3 : Nat) (h1 : WORD ≤ s1) (h2 : WORD ≤ s2)
    (hfit : s1 + s2 + s3 + 3 * ALLOC_SIZE + NODE_SIZE ≤ HEAP_SIZE) :
    buildChain s1 s2 s3 = some (gChain s1 s2 s3) := by
  have h1' : 8 ≤ s1 := by simpa [WORD] using h1
  have h2' : 8 ≤ s2 := by simpa [WORD] using h2
  have hfit' : s1 + s2 + s3 ≤ 4032 := by
    simp only [ALLOC_SIZE, NODE_SIZE, HEAP_SIZE] at hfit; omega
  have hU : (4096 : Nat) < U64 := by rw [U64_val]; norm_num
  have m1 : my_malloc freshHeap s1 =
      some (16, ⟨[⟨s1 + 16, 4064 - s1⟩], [(0, ⟨s1, false⟩)]⟩) := by
    have e := my_malloc_single 0 4080 s1 [] (by simp only [ALLOC_SIZE]; omega)
      (by omega) (by omega)
    rw [show (4080 : Nat) - (s1 + ALLOC_SIZE) = 4064 - s1 from by
          simp only [ALLOC_SIZE]; omega,
        show (0 : Nat) + (s1 + ALLOC_SIZE) = s1 + 16 from by
          simp only [ALLOC_SIZE]; omega,
        show (0 : Nat) + ALLOC_SIZE = 16 from by simp only [ALLOC_SIZE]] at e
    exact e
  have G1 : gc_malloc freshGC s1 =
      (some 16, ⟨⟨[⟨s1 + 16, 4064 - s1⟩], [(0, ⟨s1, false⟩)]⟩,
                 [16], [16], [(16, 1)], fun _ => 0⟩) := by
    have e := gc_malloc_some (g := freshGC) m1
    simpa [freshGC, insort, rcIncr] using e
  have m2 : my_malloc (⟨[⟨s1 + 16, 4064 - s1⟩], [(0, ⟨s1, false⟩)]⟩ : HeapState) s2 =
      some (s1 + 32,
        ⟨[⟨s1 + s2 + 32, 4048 - s1 - s2⟩],
         [(s1 + 16, ⟨s2, false⟩), (0, ⟨s1, false⟩)]⟩) := by
    have e := my_malloc_single (s1 + 16) (4064 - s1) s2 [(0, ⟨s1, false⟩)]
      (by simp only [ALLOC_SIZE]; omega) (by omega) (by omega)
    rw [show (4064 : Nat) - s1 - (s2 + ALLOC_SIZE) = 4048 - s1 - s2 from by
          simp only [ALLOC_SIZE]; omega,
        show s1 + 16 + (s2 + ALLOC_SIZE) = s1 + s2 + 32 from by
          simp only [ALLOC_SIZE]; omega,
        show s1 + 16 + ALLOC_SIZE = s1 + 32 from by norm_num [ALLOC_SIZE]] at e
    exact e
  have G2 : gc_malloc (⟨⟨[⟨s1 + 16, 4064 - s1⟩], [(0, ⟨s1, false⟩)]⟩,
                        [16], [16], [(16, 1)], fun _ => 0⟩ : GC) s2 =
      (some (s1 + 32),
       ⟨⟨[⟨s1 + s2 + 32, 4048 - s1 - s2⟩],
         [(s1 + 16, ⟨s2, false⟩), (0, ⟨s1, false⟩)]⟩,
        [16, s1 + 32], [16, s1 + 32], [(16, 1), (s1 + 32, 1)], fun _ => 0⟩) := by
    have e := gc_malloc_some
      (g := ⟨⟨[⟨s1 + 16, 4064 - s1⟩], [(0, ⟨s1, false⟩)]⟩,
             [16], [16], [(16, 1)], fun _ => 0⟩) m2
    dsimp only at e
    rw [e]
    rw [show insort (s1 + 32) [16] = [16, s1 + 32] from by
          simp only [insort]; rw [if_neg (by omega)],
        show rcIncr (s1 + 32) [(16, 1)] = [(16, 1), (s1 + 32, 1)] from by
          simp only [rcIncr]; rw [if_neg (by omega), if_neg (by omega)]]
  have m3 : my_malloc (⟨[⟨s1 + s2 + 32, 4048 - s1 - s2⟩],
        [(s1 + 16, ⟨s2, false⟩), (0, ⟨s1, false⟩)]⟩ : HeapState) s3 =
      some (s1 + s2 + 48,
        ⟨[⟨s1 + s2 + s3 + 48, 4032 - s1 - s2 - s3⟩],
         [(s1 + s2 + 32, ⟨s3, false⟩), (s1 + 16, ⟨s2, false⟩),
          (0, ⟨s1, false⟩)]⟩) := by
    have e := my_malloc_single (s1 + s2 + 32) (4048 - s1 - s2) s3
      [(s1 + 16, ⟨s2, false⟩), (0, ⟨s1, false⟩)]
      (by simp only [ALLOC_SIZE]; omega) (by omega) (by omega)
    rw [show (4048 : Nat) - s1 - s2 - (s3 + ALLOC_SIZE) = 4032 - s1 - s2 - s3 from by
          simp only [ALLOC_SIZE]; omega,
        show s1 + s2 + 32 + (s3 + ALLOC_SIZE) = s1 + s2 + s3 + 48 from by
          simp only [ALLOC_SIZE]; omega,
        show s1 + s2 + 32 + ALLOC_SIZE = s1 + s2 + 48 from by
          norm_num [ALLOC_SIZE]] at e
    exact e
  have G3 : gc_malloc (⟨⟨[⟨s1 + s2 + 32, 4048 - s1 - s2⟩],
        [(s1 + 16, ⟨s2, false⟩), (0, ⟨s1, false⟩)]⟩,
        [16, s1 + 32], [16, s1 + 32], [(16, 1), (s1 + 32, 1)], fun _ => 0⟩ : GC) s3 =
      (some (s1 + s2 + 48),
       ⟨⟨[⟨s1 + s2 + s3 + 48, 4032 - s1 - s2 - s3⟩],
         [(s1 + s2 + 32, ⟨s3, false⟩), (s1 + 16, ⟨s2, false⟩), (0, ⟨s1, false⟩)]⟩,
        [16, s1 + 32, s1 + s2 + 48], [16, s1 + 32, s1 + s2 + 48],
        [(16, 1), (s1 + 32, 1), (s1 + s2 + 48, 1)], fun _ => 0⟩) := by
    have e := gc_malloc_some
      (g := ⟨⟨[⟨s1 + s2 + 32, 4048 - s1 - s2⟩],
              [(s1 + 16, ⟨s2, false⟩), (0, ⟨s1, false⟩)]⟩,
             [16, s1 + 32], [16, s1 + 32], [(16, 1), (s1 + 32, 1)], fun _ => 0⟩) m3
    dsimp only at e
    rw [e]
    rw [show insort (s1 + s2 + 48) [16, s1 + 32] = [16, s1 + 32, s1 + s2 + 48] from by
          simp only [insort]; rw [if_neg (by omega), if_neg (by omega)],
        show rcIncr (s1 + s2 + 48) [(16, 1), (s1 + 32, 1)] =
            [(16, 1), (s1 + 32, 1), (s1 + s2 + 48, 1)] from by
          simp only [rcIncr]
          rw [if_neg (by omega), if_neg (by omega), if_neg (by omega),
              if_neg (by omega)]]
  have N1 : add_nested_reference
      (⟨⟨[⟨s1 + s2 + s3 + 48, 4032 - s1 - s2 - s3⟩],
         [(s1 + s2 + 32, ⟨s3, false⟩), (s1 + 16, ⟨s2, false⟩), (0, ⟨s1, false⟩)]⟩,
        [16, s1 + 32, s1 + s2 + 48], [16, s1 + 32, s1 + s2 + 48],
        [(16, 1), (s1 + 32, 1), (s1 + s2 + 48, 1)], fun _ => 0⟩ : GC)
      16 (s1 + 32) =
      some (0,
        ⟨⟨[⟨s1 + s2 + s3 + 48, 4032 - s1 - s2 - s3⟩],
          [(s1 + s2 + 32, ⟨s3, false⟩), (s1 + 16, ⟨s2, false⟩), (0, ⟨s1, false⟩)]⟩,
         [16, s1 + 32, s1 + s2 + 48], [16, s1 + 32, s1 + s2 + 48],
         [(16, 1), (s1 + 32, 2), (s1 + s2 + 48, 1)],
         storeWord (fun _ => 0) 16 (s1 + 32)⟩) := by
    unfold add_nested_reference
    dsimp only
    rw [show (16 : Nat) - ALLOC_SIZE = 0 from by simp [ALLOC_SIZE]]
    rw [show lookupHdr [(s1 + s2 + 32, ⟨s3, false⟩), (s1 + 16, ⟨s2, false⟩),
          (0, ⟨s1, false⟩)] 0 = some ⟨s1, false⟩ from by
        simp only [lookupHdr]; rw [if_neg (by omega), if_neg (by omega)]; simp]
    dsimp only
    rw [if_pos (show WORD ≤ s1 from h1)]
    rw [show rcIncr (s1 + 32) [(16, 1), (s1 + 32, 1), (s1 + s2 + 48, 1)] =
          [(16, 1), (s1 + 32, 2), (s1 + s2 + 48, 1)] from by
        simp only [rcIncr]; rw [if_neg (by omega), if_neg (by omega)]; simp]
  have N2 : add_nested_reference
      (⟨⟨[⟨s1 + s2 + s3 + 48, 4032 - s1 - s2 - s3⟩],
         [(s1 + s2 + 32, ⟨s3, false⟩), (s1 + 16, ⟨s2, false⟩), (0, ⟨s1, false⟩)]⟩,
        [16, s1 + 32, s1 + s2 + 48], [16, s1 + 32, s1 + s2 + 48],
        [(16, 1), (s1 + 32, 2), (s1 + s2 + 48, 1)],
        storeWord (fun _ => 0) 16 (s1 + 32)⟩ : GC)
      (s1 + 32) (s1 + s2 + 48) =
      some (0,
        ⟨⟨[⟨s1 + s2 + s3 + 48, 4032 - s1 - s2 - s3⟩],
          [(s1 + s2 + 32, ⟨s3, false⟩), (s1 + 16, ⟨s2, false⟩), (0, ⟨s1, false⟩)]⟩,
         [16, s1 + 32, s1 + s2 + 48], [16, s1 + 32, s1 + s2 + 48],
         [(16, 1), (s1 + 32, 2), (s1 + s2 + 48, 2)], memChain s1 s2⟩) := by
    unfold add_nested_reference
    dsimp only
    rw [show s1 + 32 - ALLOC_SIZE = s1 + 16 from by simp only [ALLOC_SIZE]; omega]
    rw [show lookupHdr [(s1 + s2 + 32, ⟨s3, false⟩), (s1 + 16, ⟨s2, false⟩),
          (0, ⟨s1, false⟩)] (s1 + 16) = some ⟨s2, false⟩ from by
        simp only [lookupHdr]; rw [if_neg (by omega)]; simp]
    dsimp only
    rw [if_pos (show WORD ≤ s2 from h2)]
    rw [show rcIncr (s1 + s2 + 48) [(16, 1), (s1 + 32, 2), (s1 + s2 + 48, 1)] =
          [(16, 1), (s1 + 32, 2), (s1 + s2 + 48, 2)] from by
        simp only [rcIncr]
        rw [if_neg (by omega), if_neg (by omega), if_neg (by omega),
            if_neg (by omega)]; simp]
    rfl
  have D : delete_reference
      (⟨⟨[⟨s1 + s2 + s3 + 48, 4032 - s1 - s2 - s3⟩],
         [(s1 + s2 + 32, ⟨s3, false⟩), (s1 + 16, ⟨s2, false⟩), (0, ⟨s1, false⟩)]⟩,
        [16, s1 + 32, s1 + s2 + 48], [16, s1 + 32, s1 + s2 + 48],
        [(16, 1), (s1 + 32, 2), (s1 + s2 + 48, 2)], memChain s1 s2⟩ : GC) 16 =
      gChain s1 s2 s3 := by
    unfold delete_reference
    dsimp only
    rw [if_pos (show (16 : Nat) ∈ [16, s1 + 32, s1 + s2 + 48] from by simp)]
    rw [show eraseOnce 16 [16, s1 + 32, s1 + s2 + 48] = [s1 + 32, s1 + s2 + 48] from by
          simp [eraseOnce]]
    rw [show rcDecClamp 16 [(16, 1), (s1 + 32, 2), (s1 + s2 + 48, 2)] =
          [(16, 0), (s1 + 32, 2), (s1 + s2 + 48, 2)] from by
        simp [rcDecClamp]]
    rfl
  unfold buildChain
  rw [G1]
  dsimp only
  rw [G2]
  dsimp only
  rw [G3]
  dsimp only
  rw [N1]
  dsimp only
  rw [N2]
  dsimp only
  rw [D]

theorem rc_collect_gChain (s1 s2 s3 : Nat) (h1 : 8 ≤ s1) (h2 : 8 ≤ s2)
    (hfit : s1 + s2 + s3 ≤ 4032) :
    rc_collect (gChain s1 s2 s3) =
      some ([16],
        ⟨⟨[⟨0, s1⟩, ⟨s1 + s2 + s3 + 48, 4032 - s1 - s2 - s3⟩],
          [(s1 + s2 + 32, ⟨s3, false⟩), (s1 + 16, ⟨s2, false⟩)]⟩,
         [s1 + 32, s1 + s2 + 48], [s1 + 32, s1 + s2 + 48],
         [(s1 + 32, 2), (s1 + s2 + 48, 2)], memChain s1 s2⟩) := by
  have mfA : my_free (gChain s1 s2 s3).heap 16 =
      some ⟨[⟨0, s1⟩, ⟨s1 + s2 + s3 + 48, 4032 - s1 - s2 - s3⟩],
            [(s1 + s2 + 32, ⟨s3, false⟩), (s1 + 16, ⟨s2, false⟩)]⟩ := by
    unfold my_free
    dsimp only [gChain]
    rw [show (16 : Nat) - ALLOC_SIZE = 0 from by simp [ALLOC_SIZE]]
    rw [show lookupHdr [(s1 + s2 + 32, ⟨s3, false⟩), (s1 + 16, ⟨s2, false⟩),
          (0, ⟨s1, false⟩)] 0 = some ⟨s1, false⟩ from by
        simp only [lookupHdr]; rw [if_neg (by omega), if_neg (by omega)]; simp]
    dsimp only
    rw [show coalesce ⟨0, s1⟩ [⟨s1 + s2 + s3 + 48, 4032 - s1 - s2 - s3⟩] =
          some [⟨0, s1⟩, ⟨s1 + s2 + s3 + 48, 4032 - s1 - s2 - s3⟩] from by
        unfold coalesce
        rw [List.takeWhile_cons_of_neg (by simp),
            List.dropWhile_cons_of_neg (by simp)]
        dsimp only
        rw [if_neg (show ¬((0 + s1 + NODE_SIZE) % U64 = s1 + s2 + s3 + 48) from by
              simp only [NODE_SIZE, U64_val]; omega)]
        rfl]
    rw [show eraseHdr [(s1 + s2 + 32, ⟨s3, false⟩), (s1 + 16, ⟨s2, false⟩),
          (0, ⟨s1, false⟩)] 0 =
          [(s1 + s2 + 32, ⟨s3, false⟩), (s1 + 16, ⟨s2, false⟩)] from by
        simp only [eraseHdr]; rw [if_neg (by omega), if_neg (by omega)]; simp]
  have GCfA : GC_free (gChain s1 s2 s3) 16 =
      some ⟨⟨[⟨0, s1⟩, ⟨s1 + s2 + s3 + 48, 4032 - s1 - s2 - s3⟩],
             [(s1 + s2 + 32, ⟨s3, false⟩), (s1 + 16, ⟨s2, false⟩)]⟩,
            [s1 + 32, s1 + s2 + 48], [s1 + 32, s1 + s2 + 48],
            [(s1 + 32, 2), (s1 + s2 + 48, 2)], memChain s1 s2⟩ := by
    unfold GC_free
    rw [mfA]
    dsimp only [gChain]
    rw [show eraseOnce 16 [16, s1 + 32, s1 + s2 + 48] =
          [s1 + 32, s1 + s2 + 48] from by simp [eraseOnce],
        show rcErase 16 [(16, 0), (s1 + 32, 2), (s1 + s2 + 48, 2)] =
          [(s1 + 32, 2), (s1 + s2 + 48, 2)] from by simp [rcErase],
        show List.filter (fun q => q ≠ 16) [s1 + 32, s1 + s2 + 48] =
          [s1 + 32, s1 + s2 + 48] from by
        rw [List.filter_cons_of_pos (by simp),
            List.filter_cons_of_pos (by simp)]
        rfl]
  have rcF : rcFindDead (gChain s1 s2 s3).reference_count = some 16 := by
    simp [gChain, rcFindDead]
  have rc2 : rc_collect (⟨⟨[⟨0, s1⟩, ⟨s1 + s2 + s3 + 48, 4032 - s1 - s2 - s3⟩],
        [(s1 + s2 + 32, ⟨s3, false⟩), (s1 + 16, ⟨s2, false⟩)]⟩,
        [s1 + 32, s1 + s2 + 48], [s1 + 32, s1 + s2 + 48],
        [(s1 + 32, 2), (s1 + s2 + 48, 2)], memChain s1 s2⟩ : GC) =
      some ([], ⟨⟨[⟨0, s1⟩, ⟨s1 + s2 + s3 + 48, 4032 - s1 - s2 - s3⟩],
        [(s1 + s2 + 32, ⟨s3, false⟩), (s1 + 16, ⟨s2, false⟩)]⟩,
        [s1 + 32, s1 + s2 + 48], [s1 + 32, s1 + s2 + 48],
        [(s1 + 32, 2), (s1 + s2 + 48, 2)], memChain s1 s2⟩) := by
    rw [rc_collect.eq_def]
    split
    · rfl
    · rename_i dead hd
      rw [show rcFindDead [(s1 + 32, 2), (s1 + s2 + 48, 2)] = none from by
            simp [rcFindDead]] at hd
      exact absurd hd (by simp)
  rw [rc_collect.eq_def]
  split
  · rename_i hd
    rw [rcF] at hd
    exact absurd hd (by simp)
  · rename_i dead hd
    rw [rcF] at hd
    obtain rfl : (16 : Nat) = dead := by injection hd
    split
    · rename_i hFree
      rw [GCfA] at hFree
      exact absurd hFree (by simp)
    · rename_i g' hFree
      rw [GCfA] at hFree
      obtain rfl : (⟨⟨[⟨0, s1⟩, ⟨s1 + s2 + s3 + 48, 4032 - s1 - s2 - s3⟩],
            [(s1 + s2 + 32, ⟨s3, false⟩), (s1 + 16, ⟨s2, false⟩)]⟩,
            [s1 + 32, s1 + s2 + 48], [s1 + 32, s1 + s2 + 48],
            [(s1 + 32, 2), (s1 + s2 + 48, 2)], memChain s1 s2⟩ : GC) = g' := by
        injection hFree
      rw [rc2]

/-- Claim C6: for blocks A, B, C created by tracked allocation (sizes
s1, s2, s3, at addresses 16, s1+32, s1+s2+48) and chained by nested
references A→B and B→C, if only A's root is deleted then rc_collect
destroys exactly A: only A's address appears in the reclaimed list, B and
C remain in the allocations table, and their reference counts are not
decremented by A's destruction (2 before the collection and 2 after). -/
theorem C6_rc_collect_chain_only_head (s1 s2 s3 : Nat)
    (h1 : WORD ≤ s1) (h2 : WORD ≤ s2)
    (hfit : s1 + s2 + s3 + 3 * ALLOC_SIZE + NODE_SIZE ≤ HEAP_SIZE) :
    ∀ g, buildChain s1 s2 s3 = some g →
      lookupRC g.reference_count (s1 + 32) = some 2 ∧
      lookupRC g.reference_count (s1 + s2 + 48) = some 2 ∧
      (rc_collect g).map (fun r =>
        (r.1, r.2.allocations,
         lookupRC r.2.reference_count (s1 + 32),
         lookupRC r.2.reference_count (s1 + s2 + 48))) =
        some ([16], [s1 + 32, s1 + s2 + 48], some 2, some 2) := by
  intro g hg
  rw [buildChain_eq s1 s2 s3 h1 h2 hfit] at hg
  obtain rfl : gChain s1 s2 s3 = g := by injection hg
  have h1' : 8 ≤ s1 := by simpa [WORD] using h1
  have h2' : 8 ≤ s2 := by simpa [WORD] using h2
  have hfit' : s1 + s2 + s3 ≤ 4032 := by
    simp only [ALLOC_SIZE, NODE_SIZE, HEAP_SIZE] at hfit; omega
  refine ⟨?_, ?_, ?_⟩
  · show lookupRC [(16, 0), (s1 + 32, 2), (s1 + s2 + 48, 2)] (s1 + 32) = some 2
    simp only [lookupRC]
    rw [if_neg (by omega)]
    simp
  · show lookupRC [(16, 0), (s1 + 32, 2), (s1 + s2 + 48, 2)] (s1 + s2 + 48) = some 2
    simp only [lookupRC]
    rw [if_neg (by omega), if_neg (by omega)]
    simp
  · rw [rc_collect_gChain s1 s2 s3 h1' h2' hfit']
    dsimp only [Option.map]
    rw [show lookupRC [(s1 + 32, 2), (s1 + s2 + 48, 2)] (s1 + 32) = some 2 from by
          simp [lookupRC],
        show lookupRC [(s1 + 32, 2), (s1 + s2 + 48, 2)] (s1 + s2 + 48) = some 2 from by
          simp only [lookupRC]; rw [if_neg (by omega)]; simp]

/-- Witness for C6 at sizes (100, 100, 100): only A (address 16) is
reclaimed; B (132) and C (248) keep reference count 2. -/
theorem C6_witness :
    (rc_collect (gChain 100 100 100)).map (fun r =>
      (r.1, r.2.allocations,
       lookupRC r.2.reference_count 132,
       lookupRC r.2.reference_count 248)) =
      some ([16], [132, 248], some 2, some 2) := by
  have h := C6_rc_collect_chain_only_head 100 100 100 (by decide) (by decide)
    (by decide) (gChain 100 100 100)
    (buildChain_eq 100 100 100 (by decide) (by decide) (by decide))
  have h3 := h.2.2
  norm_num at h3 ⊢
  exact h3

/-! Little-endian word round trip, used for the nested-reference store. -/

theorem loadLE_congr (k : Nat) : ∀ (m m' : Nat → Nat) (a : Nat),
    (∀ i, i < k → m (a + i) = m' (a + i)) → loadLE m a k = loadLE m' a k := by
  induction k with
  | zero => intro m m' a h; rfl
  | succ k ih =>
      intro m m' a h
      unfold loadLE
      rw [show m a = m' a from by simpa using h 0 (by omega)]
      rw [ih m m' (a + 1) (fun i hi => by
            have := h (i + 1) (by omega)
            simpa [show a + 1 + i = a + (i + 1) from by omega] using this)]

theorem loadLE_storeLE :
    ∀ (k : Nat) (m : Nat → Nat) (a v : Nat),
      loadLE (storeLE m a v k) a k = v % 256 ^ k
  | 0, m, a, v => by simp [loadLE, Nat.mod_one]
  | k + 1, m, a, v => by
      unfold loadLE
      rw [show storeLE m a v (k + 1) a = v % 256 from by
            unfold storeLE
            rw [if_pos ⟨Nat.le_refl a, by omega⟩]
            simp]
      rw [loadLE_congr k (storeLE m a v (k + 1)) (storeLE m (a + 1) (v / 256) k)
            (a + 1) (fun i hi => by
            show storeLE m a v (k + 1) (a + 1 + i) = storeLE m (a + 1) (v / 256) k (a + 1 + i)
            unfold storeLE
            rw [if_pos ⟨by omega, by omega⟩, if_pos ⟨by omega, by omega⟩]
            rw [show a + 1 + i - a = i + 1 from by omega,
                show a + 1 + i - (a + 1) = i from by omega]
            rw [Nat.div_div_eq_div_mul, ← Nat.pow_succ']),
          loadLE_storeLE k m (a + 1) (v / 256)]
      rw [Nat.pow_succ', Nat.mod_mul]
      omega

theorem loadWord_storeWord (m : Nat → Nat) (a v : Nat) (hv : v < U64) :
    loadWord (storeWord m a v) a = v := by
  unfold loadWord storeWord
  rw [loadLE_storeLE]
  rw [show (256 : Nat) ^ WORD = U64 from by norm_num [WORD, U64]]
  exact Nat.mod_eq_of_lt hv

/-! Registry lemmas for the collector-contract claims. -/

theorem lookupRC_rcIncr_of_none {rc : RCMap} {p : Nat}
    (hp : lookupRC rc p = none) : lookupRC (rcIncr p rc) p = some 1 := by
  induction rc with
  | nil => simp [rcIncr, lookupRC]
  | cons e rest ih =>
      obtain ⟨q, c⟩ := e
      rw [lookupRC] at hp
      by_cases hpq : p = q
      · rw [if_pos hpq] at hp; exact absurd hp (by simp)
      · rw [if_neg hpq] at hp
        rw [rcIncr, if_neg hpq]
        by_cases hlt : p < q
        · rw [if_pos hlt, lookupRC, if_pos rfl]
        · rw [if_neg hlt, lookupRC, if_neg hpq]
          exact ih hp

theorem lookupRC_none_of_forall {m : RCMap} {p : Nat}
    (h : ∀ e ∈ m, p ≠ e.1) : lookupRC m p = none := by
  induction m with
  | nil => rfl
  | cons e rest ih =>
      obtain ⟨q, c⟩ := e
      rw [lookupRC, if_neg (h (q, c) (by simp))]
      exact ih (fun e he => h e (List.mem_cons_of_mem _ he))

/-- On a key-sorted table (the std::map invariant), `operator[] += 1`
increments the entry by exactly one (creating it at 1 when absent). -/
theorem lookupRC_rcIncr_self {rc : RCMap} (p : Nat)
    (hsort : List.Pairwise (fun a b : Nat × Int => a.1 < b.1) rc) :
    lookupRC (rcIncr p rc) p = some ((lookupRC rc p).getD 0 + 1) := by
  induction rc with
  | nil => simp [rcIncr, lookupRC]
  | cons e rest ih =>
      obtain ⟨q, c⟩ := e
      rw [List.pairwise_cons] at hsort
      by_cases hpq : p = q
      · subst hpq
        simp [rcIncr, lookupRC]
      · rw [rcIncr, if_neg hpq]
        by_cases hlt : p < q
        · rw [if_pos hlt, lookupRC, if_pos rfl, lookupRC, if_neg hpq]
          rw [lookupRC_none_of_forall (m := rest)
              (fun e he => by have := hsort.1 e he; omega)]
          rfl
        · rw [if_neg hlt, lookupRC, if_neg hpq, lookupRC, if_neg hpq]
          exact ih hsort.2

theorem count_insort (p : Nat) (l : List Nat) :
    (insort p l).count p = l.count p + 1 := by
  induction l with
  | nil => simp [insort]
  | cons q rest ih =>
      rw [insort]
      by_cases hlt : p < q
      · rw [if_pos hlt, List.count_cons_self]
      · rw [if_neg hlt, List.count_cons, List.count_cons, ih]
        omega

theorem mem_insort (p : Nat) (l : List Nat) : p ∈ insort p l := by
  induction l with
  | nil => simp [insort]
  | cons q rest ih =>
      rw [insort]
      by_cases hlt : p < q
      · rw [if_pos hlt]; exact List.mem_cons_self _ _
      · rw [if_neg hlt]; exact List.mem_cons_of_mem _ ih

/-- Claim C7: tracked allocation.  On allocator failure gc_malloc returns
NULL and mutates no collector state.  On allocator success (with no stale
reference-count entry for the returned address, which cannot exist when
all addresses passed to the collector were previously returned by it) it
records the address in the allocations table, inserts it into the root
multiset (multiplicity + 1), sets its reference count to 1, and returns
the address. -/
theorem C7_gc_malloc_contract (g : GC) (S : Nat) :
    (my_malloc g.heap S = none → gc_malloc g S = (none, g)) ∧
    (∀ p h', my_malloc g.heap S = some (p, h') →
      lookupRC g.reference_count p = none →
      gc_malloc g S =
        (some p, ⟨h', insort p g.allocations, insort p g.root_set,
                  rcIncr p g.reference_count, g.mem⟩) ∧
      p ∈ insort p g.allocations ∧
      (insort p g.root_set).count p = g.root_set.count p + 1 ∧
      lookupRC (rcIncr p g.reference_count) p = some 1) := by
  refine ⟨fun hm => gc_malloc_none hm, fun p h' hm hstale => ?_⟩
  exact ⟨gc_malloc_some hm, mem_insort p g.allocations,
    count_insort p g.root_set, lookupRC_rcIncr_of_none hstale⟩

/-- Witness for C7: allocator failure at size 4081 on the fresh heap
(largest node is 4080), and success at size 100. -/
theorem C7_witness :
    gc_malloc freshGC 4081 = (none, freshGC) ∧
    gc_malloc freshGC 100 =
      (some 16, ⟨⟨[⟨116, 3964⟩], [(0, ⟨100, false⟩)]⟩,
                 [16], [16], [(16, 1)], fun _ => 0⟩) := by
  constructor
  · exact (C7_gc_malloc_contract freshGC 4081).1 (by decide)
  · have h := ((C7_gc_malloc_contract freshGC 100).2 16
      ⟨[⟨116, 3964⟩], [(0, ⟨100, false⟩)]⟩ (by decide) (by decide)).1
    simpa [freshGC, insort, rcIncr] using h

/-- Claim C8: add_nested_reference(src, dest) returns -1 iff src's payload
size is smaller than one address word, changing no state on failure; on
success it writes dest into the first word of src's payload, increments
refcount[dest] by exactly one, and modifies neither the root multiset nor
the allocations table nor the heap. -/
theorem C8_add_nested_contract (g : GC) (src dest : Nat) (hdr : Hdr)
    (hsrc : lookupHdr g.heap.headers (src - ALLOC_SIZE) = some hdr)
    (hsort : List.Pairwise (fun a b : Nat × Int => a.1 < b.1) g.reference_count)
    (hd : dest < U64) :
    (hdr.size < WORD → add_nested_reference g src dest = some (-1, g)) ∧
    (WORD ≤ hdr.size →
      add_nested_reference g src dest =
        some (0, { g with mem := storeWord g.mem src dest,
                          reference_count := rcIncr dest g.reference_count }) ∧
      loadWord (storeWord g.mem src dest) src = dest ∧
      lookupRC (rcIncr dest g.reference_count) dest =
        some ((lookupRC g.reference_count dest).getD 0 + 1)) := by
  constructor
  · intro hsmall
    unfold add_nested_reference
    rw [hsrc]
    dsimp only
    rw [if_neg (by omega)]
  · intro hbig
    refine ⟨?_, loadWord_storeWord g.mem src dest hd,
            lookupRC_rcIncr_self dest hsort⟩
    unfold add_nested_reference
    rw [hsrc]
    dsimp only
    rw [if_pos hbig]

/-- Witness for C8: on a heap holding a 4-byte block at 16 and a 50-byte
block at 36, nesting from the small block fails with no state change
(scenario S5), and nesting 36 → 16 stores 16 in the first payload word of
36 and bumps refcount[16] from 1 to 2. -/
theorem C8_witness :
    add_nested_reference (gc_malloc (gc_malloc freshGC 4).2 50).2 16 99 =
      some (-1, (gc_malloc (gc_malloc freshGC 4).2 50).2) ∧
    add_nested_reference (gc_malloc (gc_malloc freshGC 4).2 50).2 36 16 =
      some (0, { (gc_malloc (gc_malloc freshGC 4).2 50).2 with
                   mem := storeWord (gc_malloc (gc_malloc freshGC 4).2 50).2.mem 36 16,
                   reference_count :=
                     rcIncr 16 (gc_malloc (gc_malloc freshGC 4).2 50).2.reference_count }) ∧
    loadWord (storeWord (gc_malloc (gc_malloc freshGC 4).2 50).2.mem 36 16) 36 = 16 ∧
    lookupRC (rcIncr 16 (gc_malloc (gc_malloc freshGC 4).2 50).2.reference_count) 16 =
      some 2 := by
  have hfail := (C8_add_nested_contract (gc_malloc (gc_malloc freshGC 4).2 50).2
    16 99 ⟨4, false⟩ (by decide) (by decide) (by decide)).1 (by decide)
  have hok := (C8_add_nested_contract (gc_malloc (gc_malloc freshGC 4).2 50).2
    36 16 ⟨50, false⟩ (by decide) (by decide) (by decide)).2 (by decide)
  refine ⟨hfail, hok.1, hok.2.1, ?_⟩
  have h := hok.2.2
  rw [show ((lookupRC (gc_malloc (gc_malloc freshGC 4).2 50).2.reference_count 16).getD 0) = 1
        from by decide] at h
  exact h

/-! Claim C9: the print format. -/

theorem join_cons (s : String) (l : List String) :
    String.join (s :: l) = s ++ String.join l := by
  rw [String.join_eq, String.join_eq]
  apply String.ext
  simp

/-- Written from the spec's words (§4.1, print free list), for comparison
with the code-derived print_free_list:
`Free(s1)->Free(s2)->…Free(sn)->` followed by a newline, with the final
arrow present and the sentinel not printed. -/
def specFreeListString (sizes : List Nat) : String :=
  String.join (sizes.map fun s => "Free(" ++ toString s ++ ")->") ++ "\n"

/-- Claim C9: immediately after initialization available_memory() is
REGION_SIZE - sizeof(node) = 4096 - 16 = 4080, and for every free-list
state print_free_list() produces exactly the spec's format string over
the node sizes in list order. -/
theorem C9_fresh_available_and_print_format :
    available_memory freshHeap = HEAP_SIZE - NODE_SIZE ∧
    HEAP_SIZE - NODE_SIZE = 4080 ∧
    ∀ l : List FNode, print_free_list l = specFreeListString (l.map FNode.size) := by
  refine ⟨by decide, by decide, ?_⟩
  intro l
  induction l with
  | nil => rfl
  | cons n rest ih =>
      rw [print_free_list, ih]
      unfold specFreeListString
      rw [List.map_cons, List.map_cons, join_cons]
      simp [String.append_assoc]

/-! Claim C10: the byte footprint of the conservative scan. -/

/-- The word-start offsets visited by the scan loop of walk_block
(`uintptr_t *scan = p; while (scan < p + size) { ...; ++scan; }`):
offsets off, off + 8, off + 16, … strictly below `size`. -/
def scanStartsFrom (size off : Nat) : List Nat :=
  if off < size then off :: scanStartsFrom size (off + WORD) else []
termination_by size - off
decreasing_by simp only [WORD]; omega

/-- The whole scan starts at the payload base (offset 0). -/
def scanStarts (size : Nat) : List Nat := scanStartsFrom size 0

/-- The byte offsets, relative to the user pointer p, that the scan reads:
each `*scan` dereference reads the 8 bytes of one word. -/
def scanReadBytes (size : Nat) : List Nat :=
  (scanStarts size).flatMap (fun o => (List.range WORD).map (fun i => o + i))

theorem scanStartsFrom_mem (size : Nat) :
    ∀ (k off0 : Nat), size - off0 ≤ k → ∀ o ∈ scanStartsFrom size off0,
      off0 ≤ o ∧ o < size ∧ (o - off0) % WORD = 0 := by
  intro k
  induction k with
  | zero =>
      intro off0 h0 o ho
      rw [scanStartsFrom.eq_def, if_neg (by omega)] at ho
      simp at ho
  | succ k ih =>
      intro off0 hk o ho
      rw [scanStartsFrom.eq_def] at ho
      by_cases hlt : off0 < size
      · rw [if_pos hlt] at ho
        rcases List.mem_cons.mp ho with rfl | ho'
        · exact ⟨Nat.le_refl _, hlt, by simp⟩
        · have h := ih (off0 + WORD) (by simp only [WORD] at *; omega) o ho'
          refine ⟨by have := h.1; simp only [WORD] at *; omega, h.2.1, ?_⟩
          have h8 := h.2.2
          have h1 := h.1
          simp only [WORD] at *
          omega
      · rw [if_neg hlt] at ho
        simp at ho

/-- Claim C10 (amended): the word-by-word scan of a block of payload size
s reads exactly the bytes at offsets in [0, WORD·⌈s/WORD⌉); when s is a
multiple of the word size every byte read lies inside the payload
[0, s), but for other sizes the final word read crosses the payload end
(by up to WORD - 1 bytes). -/
theorem C10_scan_read_bounds (size : Nat) :
    (∀ b ∈ scanReadBytes size, b < WORD * ((size + (WORD - 1)) / WORD)) ∧
    (size % WORD = 0 → ∀ b ∈ scanReadBytes size, b < size) := by
  have hs : ∀ o ∈ scanStarts size, o < size ∧ o % WORD = 0 := by
    intro o ho
    have h := scanStartsFrom_mem size size 0 (by omega) o ho
    exact ⟨h.2.1, by simpa using h.2.2⟩
  constructor
  · intro b hb
    rcases List.mem_flatMap.mp hb with ⟨o, ho, hbo⟩
    rcases List.mem_map.mp hbo with ⟨i, hi, rfl⟩
    have hiw : i < WORD := List.mem_range.mp hi
    obtain ⟨ho1, ho2⟩ := hs o ho
    simp only [WORD] at *
    omega
  · intro hmul b hb
    rcases List.mem_flatMap.mp hb with ⟨o, ho, hbo⟩
    rcases List.mem_map.mp hbo with ⟨i, hi, rfl⟩
    have hiw : i < WORD := List.mem_range.mp hi
    obtain ⟨ho1, ho2⟩ := hs o ho
    simp only [WORD] at *
    omega

/-- Counterexample to C10 as stated: for payload size 4 (spec scenario S5
allocates such a block), the very first word read covers byte offset 4,
which is not below the payload size 4 — the scan reads past the payload
end whenever the size is not a multiple of the word size. -/
theorem C10_counterexample : 4 ∈ scanReadBytes 4 ∧ ¬(4 < 4) := by
  constructor
  · have e2 : scanStartsFrom 4 8 = [] := by
      rw [scanStartsFrom.eq_def]
      norm_num
    have e1 : scanStartsFrom 4 0 = [0] := by
      rw [scanStartsFrom.eq_def]
      norm_num [WORD, e2]
    rw [scanReadBytes, scanStarts, e1]
    decide
  · omega

/-- Witness for the amended C10 at size 12: byte offset 8 is read and
lies below WORD·⌈12/WORD⌉ = 16. -/
theorem C10_witness : 8 < WORD * ((12 + (WORD - 1)) / WORD) :=
  (C10_scan_read_bounds 12).1 8 (by
    have e3 : scanStartsFrom 12 16 = [] := by
      rw [scanStartsFrom.eq_def]
      norm_num
    have e2 : scanStartsFrom 12 8 = [8] := by
      rw [scanStartsFrom.eq_def]
      norm_num [WORD, e3]
    have e1 : scanStartsFrom 12 0 = [0, 8] := by
      rw [scanStartsFrom.eq_def]
      norm_num [WORD, e2]
    rw [scanReadBytes, scanStarts, e1]
    decide)

/-! Claim C4: the first-fit / split contract of my_malloc. -/

theorem find_free_none_iff (S : Nat) (l : List FNode) :
    find_free S l = none ↔ ∀ n ∈ l, n.size < S := by
  induction l with
  | nil => simp [find_free]
  | cons n rest ih =>
      rw [find_free]
      by_cases hn : S ≤ n.size
      · rw [if_pos hn]
        simp only [List.mem_cons]
        constructor
        · intro h; exact absurd h (by simp)
        · intro h; exact absurd (h n (Or.inl rfl)) (by omega)
      · rw [if_neg hn]
        constructor
        · intro h n' hn'
          rcases List.mem_cons.mp hn' with rfl | hmem
          · omega
          · match hf : find_free S rest with
            | some (pre, f, post) => rw [hf] at h; exact absurd h (by simp)
            | none => exact (ih.mp hf) n' hmem
        · intro h
          rw [ih.mpr (fun n' hn' => h n' (List.mem_cons_of_mem _ hn'))]

theorem find_free_first_fit (S : Nat) (pre : List FNode) (f : FNode)
    (post : List FNode) (hpre : ∀ n ∈ pre, n.size < S) (hf : S ≤ f.size) :
    find_free S (pre ++ f :: post) = some (pre, f, post) := by
  induction pre with
  | nil => rw [List.nil_append, find_free, if_pos hf]
  | cons n rest ih =>
      rw [List.cons_append, find_free,
          if_neg (by have := hpre n (by simp); omega),
          ih (fun n' hn' => hpre n' (List.mem_cons_of_mem _ hn'))]

/-- Claim C4 (amended): my_malloc returns null iff no free-list node
before the sentinel has size ≥ S; otherwise it takes the first such node
and unconditionally splits it: the remainder node is placed at offset
S + sizeof(header) from the found node, its size is
old_size - S - sizeof(header) computed in wrapping size_t arithmetic
(mod 2^64) — exact precisely when S + sizeof(header) ≤ old_size — the
remainder inherits the old node's next (the suffix `post`), and the
predecessor's next (or the list head) is patched onto it (the list shape
pre ++ remainder :: post). -/
theorem C4_malloc_first_fit_split (h : HeapState) (S : Nat) :
    (my_malloc h S = none ↔ ∀ n ∈ h.free, n.size < S) ∧
    (∀ pre f post, h.free = pre ++ f :: post →
      (∀ n ∈ pre, n.size < S) → S ≤ f.size →
      my_malloc h S =
        some (f.addr + ALLOC_SIZE,
          ⟨pre ++ (⟨(f.addr + (S + ALLOC_SIZE) % U64) % U64,
                    sub64 f.size ((S + ALLOC_SIZE) % U64)⟩ : FNode) :: post,
           (f.addr, ⟨S, false⟩) :: h.headers⟩) ∧
      (S + ALLOC_SIZE ≤ f.size → f.size < U64 →
        sub64 f.size ((S + ALLOC_SIZE) % U64) = f.size - S - ALLOC_SIZE)) := by
  constructor
  · rw [← find_free_none_iff]
    constructor
    · intro hm
      unfold my_malloc at hm
      match hf : find_free S h.free with
      | none => rfl
      | some (pre, f, post) => rw [hf] at hm; exact absurd hm (by simp)
    · intro hf
      unfold my_malloc
      rw [hf]
  · intro pre f post hsplit hpre hf
    constructor
    · unfold my_malloc
      rw [hsplit, find_free_first_fit S pre f post hpre hf]
    · intro hle hlt
      have hm : (S + ALLOC_SIZE) % U64 = S + ALLOC_SIZE :=
        Nat.mod_eq_of_lt (by omega)
      rw [hm, sub64_of_le hle hlt]
      omega

/-- Counterexample to C4 as stated: on the fresh heap (one node of size
4080) a request of exactly 4080 succeeds, and the remainder size is
computed as 4080 - 4096 in size_t, wrapping to 2^64 - 16 — it is neither
the truncated natural value 0 nor the exact integer value -16, so the
"exact (non-wrapping) integer arithmetic" part of the claim fails. -/
theorem C4_counterexample :
    (my_malloc freshHeap 4080).map (fun r => r.2.free) =
      some [⟨4096, U64 - 16⟩] ∧
    U64 - 16 ≠ 4080 - 4080 - ALLOC_SIZE ∧
    ((2 : Int) ^ 64 - 16 ≠ (4080 : Int) - 4080 - 16) := by
  refine ⟨by decide, by decide, by decide⟩

/-- Witness for the amended C4 on the fresh heap at request size 100:
the single node (address 0, size 4080) is split into a remainder at
offset 116 whose size 3964 is exact. -/
theorem C4_witness :
    my_malloc freshHeap 100 =
      some ((0 : Nat) + ALLOC_SIZE,
        ⟨[] ++ (⟨((0 : Nat) + (100 + ALLOC_SIZE) % U64) % U64,
                 sub64 4080 ((100 + ALLOC_SIZE) % U64)⟩ : FNode) :: [],
         ((0 : Nat), ⟨100, false⟩) :: freshHeap.headers⟩) ∧
    sub64 4080 ((100 + ALLOC_SIZE) % U64) = 4080 - 100 - ALLOC_SIZE := by
  have h := (C4_malloc_first_fit_split freshHeap 100).2 [] ⟨0, 4080⟩ []
    (by decide) (by simp) (by norm_num)
  exact ⟨h.1, h.2 (by norm_num [ALLOC_SIZE]) (by rw [U64_val]; norm_num)⟩

/-- Claim C5: allocating two adjacent equal-sized blocks with my_malloc
and freeing both with my_free, in either order, leaves the free list as a
single free block spanning the whole region (the fresh heap's single node
of size REGION_SIZE - sizeof(node)), and print_free_list then prints
exactly Free(4080)-> followed by a newline.  The size bound
2·(S + sizeof(header)) + sizeof(node) ≤ REGION_SIZE keeps both splits
inside the region (the spec's scenario uses S = 128). -/
theorem C5_two_adjacent_frees_coalesce (S : Nat)
    (hS : 2 * (S + ALLOC_SIZE) + NODE_SIZE ≤ HEAP_SIZE) :
    (∀ b : Bool, twoAllocTwoFree S b = some freshHeap) ∧
    print_free_list freshHeap.free =
      "Free(" ++ toString (HEAP_SIZE - NODE_SIZE) ++ ")->" ++ "\n" ∧
    HEAP_SIZE - NODE_SIZE = 4080 := by
  have hS' : S ≤ 2024 := by
    simp only [ALLOC_SIZE, NODE_SIZE, HEAP_SIZE] at hS; omega
  have hU : (4096 : Nat) < U64 := by rw [U64_val]; norm_num
  have m1 : my_malloc freshHeap S =
      some (16, ⟨[⟨S + 16, 4064 - S⟩], [(0, ⟨S, false⟩)]⟩) := by
    have e := my_malloc_single 0 4080 S [] (by simp only [ALLOC_SIZE]; omega)
      (by omega) (by omega)
    rw [show (4080 : Nat) - (S + ALLOC_SIZE) = 4064 - S from by
          simp only [ALLOC_SIZE]; omega,
        show (0 : Nat) + (S + ALLOC_SIZE) = S + 16 from by
          simp only [ALLOC_SIZE]; omega,
        show (0 : Nat) + ALLOC_SIZE = 16 from by simp only [ALLOC_SIZE]] at e
    exact e
  have m2 : my_malloc (⟨[⟨S + 16, 4064 - S⟩], [(0, ⟨S, false⟩)]⟩ : HeapState) S =
      some (S + 32,
        ⟨[⟨2 * S + 32, 4048 - 2 * S⟩],
         [(S + 16, ⟨S, false⟩), (0, ⟨S, false⟩)]⟩) := by
    have e := my_malloc_single (S + 16) (4064 - S) S [(0, ⟨S, false⟩)]
      (by simp only [ALLOC_SIZE]; omega) (by omega) (by omega)
    rw [show (4064 : Nat) - S - (S + ALLOC_SIZE) = 4048 - 2 * S from by
          simp only [ALLOC_SIZE]; omega,
        show S + 16 + (S + ALLOC_SIZE) = 2 * S + 32 from by
          simp only [ALLOC_SIZE]; omega,
        show S + 16 + ALLOC_SIZE = S + 32 from by norm_num [ALLOC_SIZE]] at e
    exact e
  -- order p1 then p2
  have fA1 : my_free (⟨[⟨2 * S + 32, 4048 - 2 * S⟩],
        [(S + 16, ⟨S, false⟩), (0, ⟨S, false⟩)]⟩ : HeapState) 16 =
      some ⟨[⟨0, S⟩, ⟨2 * S + 32, 4048 - 2 * S⟩], [(S + 16, ⟨S, false⟩)]⟩ := by
    unfold my_free
    dsimp only
    rw [show (16 : Nat) - ALLOC_SIZE = 0 from by simp [ALLOC_SIZE]]
    rw [show lookupHdr [(S + 16, ⟨S, false⟩), (0, ⟨S, false⟩)] 0 =
          some ⟨S, false⟩ from by
        simp only [lookupHdr]; rw [if_neg (by omega)]; simp]
    dsimp only
    rw [show coalesce ⟨0, S⟩ [⟨2 * S + 32, 4048 - 2 * S⟩] =
          some [⟨0, S⟩, ⟨2 * S + 32, 4048 - 2 * S⟩] from by
        unfold coalesce
        rw [List.takeWhile_cons_of_neg (by simp),
            List.dropWhile_cons_of_neg (by simp)]
        dsimp only
        rw [if_neg (show ¬((0 + S + NODE_SIZE) % U64 = 2 * S + 32) from by
              simp only [NODE_SIZE, U64_val]; omega)]
        rfl]
    rw [show eraseHdr [(S + 16, ⟨S, false⟩), (0, ⟨S, false⟩)] 0 =
          [(S + 16, ⟨S, false⟩)] from by
        simp only [eraseHdr]; rw [if_neg (by omega)]; simp]
  have fA2 : my_free (⟨[⟨0, S⟩, ⟨2 * S + 32, 4048 - 2 * S⟩],
        [(S + 16, ⟨S, false⟩)]⟩ : HeapState) (S + 32) =
      some ⟨[⟨0, 4080⟩], []⟩ := by
    unfold my_free
    dsimp only
    rw [show S + 32 - ALLOC_SIZE = S + 16 from by simp only [ALLOC_SIZE]; omega]
    rw [show lookupHdr [(S + 16, ⟨S, false⟩)] (S + 16) = some ⟨S, false⟩ from by
          simp [lookupHdr]]
    dsimp only
    rw [show coalesce ⟨S + 16, S⟩ [⟨0, S⟩, ⟨2 * S + 32, 4048 - 2 * S⟩] =
          some [⟨0, 4080⟩] from by
        unfold coalesce
        rw [List.takeWhile_cons_of_pos (by simp only [decide_eq_true_eq]; omega),
            List.takeWhile_cons_of_neg (by simp only [decide_eq_true_eq]; omega),
            List.dropWhile_cons_of_pos (by simp only [decide_eq_true_eq]; omega),
            List.dropWhile_cons_of_neg (by simp only [decide_eq_true_eq]; omega)]
        dsimp only
        rw [if_pos (show (S + 16 + S + NODE_SIZE) % U64 = 2 * S + 32 from by
              simp only [NODE_SIZE, U64_val]; omega)]
        rw [show List.getLast? [(⟨0, S⟩ : FNode)] = some ⟨0, S⟩ from by simp]
        dsimp only
        rw [if_pos (show (0 + S + NODE_SIZE) % U64 = S + 16 from by
              simp only [NODE_SIZE, U64_val]; omega)]
        rw [show (S + (4048 - 2 * S) + NODE_SIZE) % U64 = 4064 - S from by
              simp only [NODE_SIZE, U64_val]; omega]
        rw [show (S + (4064 - S) + NODE_SIZE) % U64 = 4080 from by
              simp only [NODE_SIZE, U64_val]; omega]
        simp]
    rw [show eraseHdr [(S + 16, ⟨S, false⟩)] (S + 16) = [] from by
          simp [eraseHdr]]
  -- order p2 then p1
  have fB1 : my_free (⟨[⟨2 * S + 32, 4048 - 2 * S⟩],
        [(S + 16, ⟨S, false⟩), (0, ⟨S, false⟩)]⟩ : HeapState) (S + 32) =
      some ⟨[⟨S + 16, 4064 - S⟩], [(0, ⟨S, false⟩)]⟩ := by
    unfold my_free
    dsimp only
    rw [show S + 32 - ALLOC_SIZE = S + 16 from by simp only [ALLOC_SIZE]; omega]
    rw [show lookupHdr [(S + 16, ⟨S, false⟩), (0, ⟨S, false⟩)] (S + 16) =
          some ⟨S, false⟩ from by simp [lookupHdr]]
    dsimp only
    rw [show coalesce ⟨S + 16, S⟩ [⟨2 * S + 32, 4048 - 2 * S⟩] =
          some [⟨S + 16, 4064 - S⟩] from by
        unfold coalesce
        rw [List.takeWhile_cons_of_neg (by simp only [decide_eq_true_eq]; omega),
            List.dropWhile_cons_of_neg (by simp only [decide_eq_true_eq]; omega)]
        dsimp only
        rw [if_pos (show (S + 16 + S + NODE_SIZE) % U64 = 2 * S + 32 from by
              simp only [NODE_SIZE, U64_val]; omega)]
        rw [show (S + (4048 - 2 * S) + NODE_SIZE) % U64 = 4064 - S from by
              simp only [NODE_SIZE, U64_val]; omega]
        rfl]
    rw [show eraseHdr [(S + 16, ⟨S, false⟩), (0, ⟨S, false⟩)] (S + 16) =
          [(0, ⟨S, false⟩)] from by simp [eraseHdr]]
  have fB2 : my_free (⟨[⟨S + 16, 4064 - S⟩], [(0, ⟨S, false⟩)]⟩ : HeapState) 16 =
      some ⟨[⟨0, 4080⟩], []⟩ := by
    unfold my_free
    dsimp only
    rw [show (16 : Nat) - ALLOC_SIZE = 0 from by simp [ALLOC_SIZE]]
    rw [show lookupHdr [(0, ⟨S, false⟩)] 0 = some ⟨S, false⟩ from by
          simp [lookupHdr]]
    dsimp only
    rw [show coalesce ⟨0, S⟩ [⟨S + 16, 4064 - S⟩] = some [⟨0, 4080⟩] from by
        unfold coalesce
        rw [List.takeWhile_cons_of_neg (by simp),
            List.dropWhile_cons_of_neg (by simp)]
        dsimp only
        rw [if_pos (show (0 + S + NODE_SIZE) % U64 = S + 16 from by
              simp only [NODE_SIZE, U64_val]; omega)]
        rw [show (S + (4064 - S) + NODE_SIZE) % U64 = 4080 from by
              simp only [NODE_SIZE, U64_val]; omega]
        rfl]
    rw [show eraseHdr [(0, ⟨S, false⟩)] 0 = [] from by simp [eraseHdr]]
  refine ⟨?_, by decide, by decide⟩
  intro b
  unfold twoAllocTwoFree
  rw [m1]
  dsimp only
  rw [m2]
  dsimp only
  cases b
  · rw [if_neg (by simp)]
    rw [fB1]
    dsimp only
    rw [fB2]
    rfl
  · rw [if_pos rfl]
    rw [fA1]
    dsimp only
    rw [fA2]
    rfl

/-- Witness for C5 at the spec's S4 size 128, both orders. -/
theorem C5_witness :
    twoAllocTwoFree 128 true = some freshHeap ∧
    twoAllocTwoFree 128 false = some freshHeap ∧
    print_free_list freshHeap.free = "Free(4080)->" ++ "\n" := by
  have h := C5_two_adjacent_frees_coalesce 128 (by decide)
  exact ⟨h.1 true, h.1 false, by decide⟩

/-! Claim C3: the memory-accounting invariant. -/

/-- Bytes accounted to live allocations: payload size + header size. -/
def liveBytes (h : HeapState) : Nat :=
  (h.headers.map (fun e => e.2.size + ALLOC_SIZE)).sum

/-- Bytes covered by the free list: each node's capacity plus its own
in-band node header. -/
def freeBytes (l : List FNode) : Nat :=
  (l.map FNode.size).sum + NODE_SIZE * l.length

/-- A request whose first-fit node leaves a non-negative remainder, so
the split's size_t subtraction does not wrap (§9's open question). -/
def goodFit (h : HeapState) (S : Nat) : Prop :=
  ∀ pre f post, find_free S h.free = some (pre, f, post) → S + ALLOC_SIZE ≤ f.size

/-- Heap states reachable from the fresh region through the public
operations: my_malloc with a good fit (a failing request changes
nothing), my_free of a live allocation, and reset.  The collector's
public operations change the heap only through these three. -/
inductive Reached : HeapState → Prop
  | init : Reached freshHeap
  | malloc {h : HeapState} {S p : Nat} {h' : HeapState} :
      Reached h → goodFit h S → my_malloc h S = some (p, h') → Reached h'
  | free {h : HeapState} {p : Nat} {h' : HeapState} :
      Reached h → my_free h p = some h' → Reached h'
  | reset {h : HeapState} : Reached h → Reached freshHeap

theorem find_free_decomp (S : Nat) :
    ∀ (l pre : List FNode) (f : FNode) (post : List FNode),
      find_free S l = some (pre, f, post) → l = pre ++ f :: post ∧ S ≤ f.size := by
  intro l
  induction l with
  | nil => intro pre f post hf; simp [find_free] at hf
  | cons n rest ih =>
      intro pre f post hf
      rw [find_free] at hf
      by_cases hn : S ≤ n.size
      · rw [if_pos hn] at hf
        simp only [Option.some.injEq, Prod.mk.injEq] at hf
        obtain ⟨h1, h2, h3⟩ := hf
        subst h2 h3
        rw [← h1]
        exact ⟨by simp, hn⟩
      · rw [if_neg hn] at hf
        match hrec : find_free S rest with
        | none => rw [hrec] at hf; exact absurd hf (by simp)
        | some (pre', f', post') =>
            rw [hrec] at hf
            simp only [Option.some.injEq, Prod.mk.injEq] at hf
            obtain ⟨h1, h2, h3⟩ := hf
            obtain ⟨hd, hs⟩ := ih pre' f' post' hrec
            refine ⟨?_, by rw [← h2]; exact hs⟩
            rw [← h1, ← h2, ← h3, List.cons_append, ← hd]

theorem size_le_sum {l : List FNode} {n : FNode} (hn : n ∈ l) :
    n.size ≤ (l.map FNode.size).sum := by
  induction l with
  | nil => simp at hn
  | cons m rest ih =>
      rw [List.map_cons, List.sum_cons]
      rcases List.mem_cons.mp hn with rfl | hmem
      · omega
      · have := ih hmem; omega

theorem liveBytes_eraseHdr {hs : Headers} {a : Nat} {hdr : Hdr}
    (hl : lookupHdr hs a = some hdr) :
    ((eraseHdr hs a).map (fun e => e.2.size + ALLOC_SIZE)).sum
      + (hdr.size + ALLOC_SIZE)
      = (hs.map (fun e => e.2.size + ALLOC_SIZE)).sum := by
  induction hs with
  | nil => simp [lookupHdr] at hl
  | cons e rest ih =>
      obtain ⟨a', h'⟩ := e
      rw [lookupHdr] at hl
      rw [eraseHdr]
      by_cases hc : a = a'
      · rw [if_pos hc] at hl ⊢
        obtain rfl : h' = hdr := by injection hl
        simp only [List.map_cons, List.sum_cons]
        omega
      · rw [if_neg hc] at hl ⊢
        simp only [List.map_cons, List.sum_cons]
        have := ih hl
        omega

theorem freeBytes_append (l1 l2 : List FNode) :
    freeBytes (l1 ++ l2) = freeBytes l1 + freeBytes l2 := by
  simp only [freeBytes, List.map_append, List.sum_append, List.length_append,
    NODE_SIZE]
  omega

theorem freeBytes_cons (n : FNode) (l : List FNode) :
    freeBytes (n :: l) = n.size + NODE_SIZE + freeBytes l := by
  simp only [freeBytes, List.map_cons, List.sum_cons, List.length_cons, NODE_SIZE]
  omega

/-- Heap::coalesce conserves covered bytes: the resulting free list
covers exactly the old free bytes plus the freed block's footprint.  The
size bounds rule out size_t wrap-around in the merge additions. -/
theorem coalesce_freeBytes {fb : FNode} {l l' : List FNode}
    (hbl : ∀ n ∈ l, n.size ≤ HEAP_SIZE) (hfb : fb.size ≤ HEAP_SIZE)
    (hc : coalesce fb l = some l') :
    freeBytes l' = freeBytes l + fb.size + NODE_SIZE := by
  have hU : (100000 : Nat) < U64 := by rw [U64_val]; norm_num
  have hnil : freeBytes [] = 0 := by simp [freeBytes]
  unfold coalesce at hc
  have hsplit : l.takeWhile (fun n => n.addr < fb.addr)
      ++ l.dropWhile (fun n => n.addr < fb.addr) = l :=
    List.takeWhile_append_dropWhile _ _
  have hmemt : ∀ n ∈ l.takeWhile (fun n => n.addr < fb.addr), n.size ≤ HEAP_SIZE :=
    fun n hn => hbl n ((List.takeWhile_sublist _).mem hn)
  have hmemd : ∀ n ∈ l.dropWhile (fun n => n.addr < fb.addr), n.size ≤ HEAP_SIZE :=
    fun n hn => hbl n ((List.dropWhile_sublist _).mem hn)
  have hfree : freeBytes l = freeBytes (l.takeWhile (fun n => n.addr < fb.addr))
      + freeBytes (l.dropWhile (fun n => n.addr < fb.addr)) := by
    rw [← freeBytes_append, hsplit]
  rcases hAft : l.dropWhile (fun n => n.addr < fb.addr) with _ | ⟨n, rest⟩
  all_goals rw [hAft] at hc
  -- next is the sentinel
  · dsimp only at hc
    by_cases h0 : (fb.addr + fb.size + NODE_SIZE) % U64 = HEAP_SIZE
    · rw [if_pos h0] at hc
      exact absurd hc (by simp)
    · rw [if_neg h0] at hc
      dsimp only at hc
      rcases hLast : (l.takeWhile (fun n => n.addr < fb.addr)).getLast? with _ | prev
      all_goals rw [hLast] at hc
      · obtain hTW : l.takeWhile (fun n => n.addr < fb.addr) = [] :=
          List.getLast?_eq_none_iff.mp hLast
        obtain rfl : [fb] = l' := by injection hc
        rw [hfree, hAft, hTW, freeBytes_cons, hnil]
        omega
      · dsimp only at hc
        have hdecomp := List.dropLast_append_getLast? prev hLast
        have hprev : prev ∈ l.takeWhile (fun n => n.addr < fb.addr) := by
          rw [← hdecomp]; simp
        have hpb : prev.size ≤ HEAP_SIZE := hmemt prev hprev
        have hTW : freeBytes (l.takeWhile (fun n => n.addr < fb.addr)) =
            freeBytes ((l.takeWhile (fun n => n.addr < fb.addr)).dropLast)
              + prev.size + NODE_SIZE := by
          conv_lhs => rw [← hdecomp]
          rw [freeBytes_append, freeBytes_cons, hnil]
          omega
        by_cases h2 : (prev.addr + prev.size + NODE_SIZE) % U64 = fb.addr
        · rw [if_pos h2] at hc
          obtain rfl : (l.takeWhile (fun n => n.addr < fb.addr)).dropLast
              ++ [(⟨prev.addr, (prev.size + fb.size + NODE_SIZE) % U64⟩ : FNode)]
              = l' := by injection hc
          have hmod : (prev.size + fb.size + NODE_SIZE) % U64
              = prev.size + fb.size + NODE_SIZE := by
            apply Nat.mod_eq_of_lt
            simp only [NODE_SIZE, HEAP_SIZE] at *
            omega
          rw [freeBytes_append, freeBytes_cons, hnil, hfree, hAft, hTW]
          dsimp only
          rw [hmod]
          omega
        · rw [if_neg h2] at hc
          obtain rfl : l.takeWhile (fun n => n.addr < fb.addr) ++ [fb] = l' := by
            injection hc
          rw [freeBytes_append, freeBytes_cons, hnil, hfree, hAft]
          omega
  -- next is a real node
  · dsimp only at hc
    have hnb : n.size ≤ HEAP_SIZE := hmemd n (by rw [hAft]; simp)
    by_cases h1 : (fb.addr + fb.size + NODE_SIZE) % U64 = n.addr
    · rw [if_pos h1] at hc
      dsimp only at hc
      have hmod1 : (fb.size + n.size + NODE_SIZE) % U64
          = fb.size + n.size + NODE_SIZE := by
        apply Nat.mod_eq_of_lt
        simp only [NODE_SIZE, HEAP_SIZE] at *
        omega
      rcases hLast : (l.takeWhile (fun n => n.addr < fb.addr)).getLast? with _ | prev
      all_goals rw [hLast] at hc
      · obtain hTW : l.takeWhile (fun n => n.addr < fb.addr) = [] :=
          List.getLast?_eq_none_iff.mp hLast
        obtain rfl : (⟨fb.addr, (fb.size + n.size + NODE_SIZE) % U64⟩ : FNode)
            :: rest = l' := by injection hc
        rw [freeBytes_cons, hfree, hAft, hTW, hnil, freeBytes_cons]
        dsimp only
        rw [hmod1]
        omega
      · dsimp only at hc
        have hdecomp := List.dropLast_append_getLast? prev hLast
        have hprev : prev ∈ l.takeWhile (fun n => n.addr < fb.addr) := by
          rw [← hdecomp]; simp
        have hpb : prev.size ≤ HEAP_SIZE := hmemt prev hprev
        have hTW : freeBytes (l.takeWhile (fun n => n.addr < fb.addr)) =
            freeBytes ((l.takeWhile (fun n => n.addr < fb.addr)).dropLast)
              + prev.size + NODE_SIZE := by
          conv_lhs => rw [← hdecomp]
          rw [freeBytes_append, freeBytes_cons, hnil]
          omega
        by_cases h2 : (prev.addr + prev.size + NODE_SIZE) % U64 = fb.addr
        · rw [if_pos h2] at hc
          obtain rfl : (l.takeWhile (fun n => n.addr < fb.addr)).dropLast
              ++ (⟨prev.addr,
                   (prev.size + (fb.size + n.size + NODE_SIZE) % U64 + NODE_SIZE)
                     % U64⟩ : FNode) :: rest = l' := by injection hc
          have hmod2 : (prev.size + (fb.size + n.size + NODE_SIZE) % U64 + NODE_SIZE)
              % U64 = prev.size + (fb.size + n.size + NODE_SIZE) + NODE_SIZE := by
            rw [hmod1]
            apply Nat.mod_eq_of_lt
            simp only [NODE_SIZE, HEAP_SIZE] at *
            omega
          rw [freeBytes_append, freeBytes_cons, hfree, hAft, hTW, freeBytes_cons]
          dsimp only
          rw [hmod2]
          omega
        · rw [if_neg h2] at hc
          obtain rfl : l.takeWhile (fun n => n.addr < fb.addr)
              ++ (⟨fb.addr, (fb.size + n.size + NODE_SIZE) % U64⟩ : FNode)
              :: rest = l' := by injection hc
          rw [freeBytes_append, freeBytes_cons, hfree, hAft, freeBytes_cons]
          dsimp only
          rw [hmod1]
          omega
    · rw [if_neg h1] at hc
      dsimp only at hc
      rcases hLast : (l.takeWhile (fun n => n.addr < fb.addr)).getLast? with _ | prev
      all_goals rw [hLast] at hc
      · obtain hTW : l.takeWhile (fun n => n.addr < fb.addr) = [] :=
          List.getLast?_eq_none_iff.mp hLast
        obtain rfl : fb :: n :: rest = l' := by injection hc
        rw [freeBytes_cons, freeBytes_cons, hfree, hAft, hTW, hnil, freeBytes_cons]
        omega
      · dsimp only at hc
        have hdecomp := List.dropLast_append_getLast? prev hLast
        have hprev : prev ∈ l.takeWhile (fun n => n.addr < fb.addr) := by
          rw [← hdecomp]; simp
        have hpb : prev.size ≤ HEAP_SIZE := hmemt prev hprev
        have hTW : freeBytes (l.takeWhile (fun n => n.addr < fb.addr)) =
            freeBytes ((l.takeWhile (fun n => n.addr < fb.addr)).dropLast)
              + prev.size + NODE_SIZE := by
          conv_lhs => rw [← hdecomp]
          rw [freeBytes_append, freeBytes_cons, hnil]
          omega
        by_cases h2 : (prev.addr + prev.size + NODE_SIZE) % U64 = fb.addr
        · rw [if_pos h2] at hc
          obtain rfl : (l.takeWhile (fun n => n.addr < fb.addr)).dropLast
              ++ (⟨prev.addr, (prev.size + fb.size + NODE_SIZE) % U64⟩ : FNode)
              :: n :: rest = l' := by injection hc
          have hmod : (prev.size + fb.size + NODE_SIZE) % U64
              = prev.size + fb.size + NODE_SIZE := by
            apply Nat.mod_eq_of_lt
            simp only [NODE_SIZE, HEAP_SIZE] at *
            omega
          rw [freeBytes_append, freeBytes_cons, freeBytes_cons, hfree, hAft, hTW,
              freeBytes_cons]
          dsimp only
          rw [hmod]
          omega
        · rw [if_neg h2] at hc
          obtain rfl : l.takeWhile (fun n => n.addr < fb.addr)
              ++ fb :: n :: rest = l' := by injection hc
          rw [freeBytes_append, freeBytes_cons, freeBytes_cons, hfree, hAft,
              freeBytes_cons]
          omega

/-- Claim C3 (amended): after every public operation — starting from the
fresh region, through allocations whose first-fit node has size at least
S + sizeof(header) (so the split's size_t subtraction does not wrap),
frees of live allocations, and resets — available_memory() plus the sum
over live allocations of (payload size + header size) plus
sizeof(node) times the number of free-list nodes equals REGION_SIZE.
The original P1 omits the sizeof(node) term: the 16 header bytes of each
free-list node are neither available payload nor part of any live
allocation. -/
theorem C3_accounting_invariant :
    ∀ h, Reached h →
      available_memory h + liveBytes h + NODE_SIZE * h.free.length = HEAP_SIZE := by
  intro h hr
  induction hr with
  | init => decide
  | reset hr ih => decide
  | malloc hr hgood hm ih =>
      rename_i h0 S p h'
      unfold my_malloc at hm
      match hf : find_free S h0.free with
      | none => rw [hf] at hm; exact absurd hm (by simp)
      | some (pre, f, post) =>
          rw [hf] at hm
          dsimp only at hm
          obtain ⟨-, rfl⟩ : f.addr + ALLOC_SIZE = p ∧
              (⟨pre ++ (⟨(f.addr + (S + ALLOC_SIZE) % U64) % U64,
                        sub64 f.size ((S + ALLOC_SIZE) % U64)⟩ : FNode) :: post,
                (f.addr, ⟨S, false⟩) :: h0.headers⟩ : HeapState) = h' := by
            simpa using hm
          have hfit : S + ALLOC_SIZE ≤ f.size := hgood pre f post hf
          obtain ⟨hdec, -⟩ := find_free_decomp S h0.free pre f post hf
          have hmem : f ∈ h0.free := by rw [hdec]; simp
          have hfs : f.size ≤ HEAP_SIZE := by
            have h1 := size_le_sum hmem
            have h2 := ih
            simp only [available_memory, NODE_SIZE, HEAP_SIZE] at h2 ⊢
            omega
          have hmod : (S + ALLOC_SIZE) % U64 = S + ALLOC_SIZE := by
            apply Nat.mod_eq_of_lt
            have : (4096 : Nat) < U64 := by rw [U64_val]; norm_num
            simp only [HEAP_SIZE] at hfs
            omega
          have hsub : sub64 f.size ((S + ALLOC_SIZE) % U64) =
              f.size - (S + ALLOC_SIZE) := by
            rw [hmod]
            exact sub64_of_le hfit (by
              have : (4096 : Nat) < U64 := by rw [U64_val]; norm_num
              simp only [HEAP_SIZE] at hfs
              omega)
          simp only [available_memory, liveBytes] at ih ⊢
          rw [hdec] at ih
          simp only [List.map_append, List.sum_append, List.map_cons, List.sum_cons,
            List.length_append, List.length_cons] at ih ⊢
          rw [hsub]
          simp only [NODE_SIZE, ALLOC_SIZE, HEAP_SIZE] at ih hfit ⊢
          omega
  | free hr hfree ih =>
      rename_i h0 p h'
      unfold my_free at hfree
      match hL : lookupHdr h0.headers (p - ALLOC_SIZE) with
      | none => rw [hL] at hfree; exact absurd hfree (by simp)
      | some hdr =>
          rw [hL] at hfree
          dsimp only at hfree
          match hcl : coalesce ⟨p - ALLOC_SIZE, hdr.size⟩ h0.free with
          | none => rw [hcl] at hfree; exact absurd hfree (by simp)
          | some l2 =>
              rw [hcl] at hfree
              obtain rfl : (⟨l2, eraseHdr h0.headers (p - ALLOC_SIZE)⟩ : HeapState)
                  = h' := by injection hfree
              have hbl : ∀ n ∈ h0.free, n.size ≤ HEAP_SIZE := by
                intro n hn
                have h1 := size_le_sum hn
                have h2 : (h0.free.map FNode.size).sum ≤ available_memory h0 := by
                  simp only [available_memory]
                  omega
                simp only [NODE_SIZE, HEAP_SIZE] at *
                omega
              have herase := liveBytes_eraseHdr hL
              have hfb : hdr.size ≤ HEAP_SIZE := by
                have h3 : hdr.size + ALLOC_SIZE ≤ liveBytes h0 := by
                  unfold liveBytes
                  omega
                simp only [NODE_SIZE, ALLOC_SIZE, HEAP_SIZE] at *
                omega
              have hco := coalesce_freeBytes hbl hfb hcl
              simp only [freeBytes] at hco
              simp only [available_memory, liveBytes] at ih ⊢
              simp only [NODE_SIZE, ALLOC_SIZE, HEAP_SIZE] at *
              omega

/-- Counterexample to C3 as stated: after the public operation
my_malloc(100) on the fresh heap, available_memory() plus the live
block's (payload + header) is 3964 + 116 = 4080, not REGION_SIZE =
4096 — the free-list node's own 16 header bytes are unaccounted.  (The
fresh state itself already violates P1: 4080 + 0 ≠ 4096.) -/
theorem C3_counterexample :
    (my_malloc freshHeap 100).map
      (fun r => available_memory r.2 + liveBytes r.2) = some 4080 ∧
    (4080 : Nat) ≠ HEAP_SIZE := ⟨by decide, by decide⟩

/-- Witness for the amended C3: the state reached by my_malloc(100) from
the fresh region satisfies the amended accounting equation. -/
theorem C3_witness :
    available_memory (⟨[⟨116, 3964⟩], [(0, ⟨100, false⟩)]⟩ : HeapState) +
    liveBytes ⟨[⟨116, 3964⟩], [(0, ⟨100, false⟩)]⟩ +
    NODE_SIZE * (⟨[⟨116, 3964⟩], [(0, ⟨100, false⟩)]⟩ : HeapState).free.length =
      HEAP_SIZE := by
  apply C3_accounting_invariant
  apply Reached.malloc (S := 100) (p := 16) Reached.init
  · intro pre f post hf
    rw [show find_free 100 freshHeap.free =
          some ([], (⟨0, 4080⟩ : FNode), []) from by decide] at hf
    simp only [Option.some.injEq, Prod.mk.injEq] at hf
    obtain ⟨-, h2, -⟩ := hf
    rw [← h2]
    decide
  · decide

end MSP

